import Mathlib

/-!
# Verification of `pgtype.Text` (text.go)

A shallow embedding of the `Text` value container of `text.go` and of the
library routines it calls (`append`, `strconv`, `unicode/utf8`,
`unicode/utf16` and the string part of `encoding/json`, after the Go 1.13
sources), followed by theorems about it.

Conventions of the embedding

* A Go `string` is an immutable sequence of bytes, a byte being a natural
  number below 256: `GoString := List Nat`.
* A Go `[]byte` is either the nil slice or a non-nil slice with contents:
  `ByteSlice := Option (List Nat)`; `none` is the nil slice (the absent
  marker of the wire protocol), `some []` is a zero-length non-nil slice.
  Capacity and aliasing are not modelled.
* A method with a pointer receiver `dst *Text` that returns `error` is a
  function from the old container to the new container and an optional error.
-/

namespace Pgtype

/-! ## Data model -/

/-- A Go string: a sequence of bytes (not necessarily valid UTF-8); a byte is
a natural number below 256. -/
abbrev GoString := List Nat

/-- A Go byte slice: `none` is the nil slice, `some bs` a non-nil slice. -/
abbrev ByteSlice := Option (List Nat)

/-- Modelled from the spec: the declaration of `Status` is not in text.go.
The spec gives the tri-state tag `Undefined` (the zero value), `Null`,
`Present`; the code treats it as an open integer type (its switches have
default branches), so a status is a numeric code with three named values. -/
structure Status where
  code : Nat
  deriving DecidableEq, Repr

/-- The zero value of `Status`: never assigned. -/
def Undefined : Status := ⟨0⟩

/-- The value is explicitly absent. -/
def Null : Status := ⟨1⟩

/-- A value exists. -/
def Present : Status := ⟨2⟩

/-- The container `type Text struct { String string; Status Status }`. -/
structure Text where
  String : GoString
  Status : Status
  deriving DecidableEq, Repr

/-- Modelled from the spec: the declaration of `ConnInfo` is not in text.go.
It is the encoding context, which the spec leaves unspecified and text.go
never inspects; a `*ConnInfo` is an `Option ConnInfo`. -/
structure ConnInfo where
  id : Nat
  deriving DecidableEq, Repr

/-- A dynamically typed Go value (`interface{}`), by dynamic type.

Values of types that carry a method `Get() interface{}` are the three
`getter` constructors: the comparison `value2 != value` of `Set` is true for
`getter`, false for `getterSelf`, and a run-time panic for
`getterUncomparable` (Go compares two interface values of the same dynamic
type by value, and panics when that type is not comparable). -/
inductive AnyValue where
  /-- The nil interface value. -/
  | nil
  /-- A value of type `string`. -/
  | string (s : GoString)
  /-- A value of type `*string`: `none` is the nil pointer. -/
  | stringPtr (p : Option GoString)
  /-- A value of type `[]byte`. -/
  | bytes (b : ByteSlice)
  | int (v : Int)
  | int64 (v : Int)
  | int32 (v : Int)
  | int16 (v : Int)
  | int8 (v : Int)
  | uint (v : Nat)
  | uint64 (v : Nat)
  | uint32 (v : Nat)
  | uint16 (v : Nat)
  | uint8 (v : Nat)
  | bool (b : Bool)
  /-- A `float64`, by its bit pattern. -/
  | float64 (bits : Nat)
  /-- A value of type `Status`. -/
  | status (s : Status)
  /-- A value of a defined type without `Get` whose underlying type is
  `string`, such as `type Name string`. -/
  | definedString (s : GoString)
  /-- A value of any other type without `Get`; `tag` tells such values apart. -/
  | other (tag : Nat)
  /-- A value with a method `Get() interface{}` that returns `got`, which is
  not equal to the value itself. -/
  | getter (got : AnyValue)
  /-- A value with a method `Get() interface{}` that returns the value itself;
  `underlying` is `some s` when the underlying type is `string` with value `s`. -/
  | getterSelf (underlying : Option GoString)
  /-- A value of a type that is not comparable (a struct with a slice field,
  a defined slice or map type) with a method `Get() interface{}` that returns a
  value of the same type, such as the value itself. -/
  | getterUncomparable (tag : Nat)
  deriving DecidableEq, Repr

/-- A destination of `AssignTo` (`interface{}`), with the state of what it
refers to.  A reference is a non-nil pointer to a variable. -/
inductive Dest where
  /-- A `*string` that points to a variable holding `cur`. -/
  | stringRef (cur : GoString)
  /-- A `*[]byte` that points to a variable holding `cur`. -/
  | bytesRef (cur : ByteSlice)
  /-- A destination of any other shape; `tag` tells the shapes and their
  states apart. -/
  | other (tag : Nat)
  deriving DecidableEq, Repr

/-- The errors text.go returns. -/
inductive Error where
  /-- The package variable `errUndefined`, declared outside text.go: the
  undefined-value error. -/
  | errUndefined
  /-- The package variable `errBadStatus`, declared outside text.go: the
  invalid-status error. -/
  | errBadStatus
  /-- The error `cannot convert %v to Text` of `Set`. -/
  | cannotConvert (src : AnyValue)
  /-- The error `cannot scan %T` of `Scan`. -/
  | cannotScan (src : AnyValue)
  /-- A `*json.SyntaxError` of `json.Unmarshal`. -/
  | jsonSyntax
  /-- A `*json.UnmarshalTypeError` of `json.Unmarshal`; `value` names the
  JSON shape met (0 bool, 1 number, 2 array, 3 object). -/
  | jsonType (value : Nat)
  /-- The error `unable to assign to %T` of `AssignTo`. -/
  | unableToAssign (dst : Dest)
  /-- The error `cannot decode %#v into %T` of `AssignTo`. -/
  | cannotDecode (src : Text) (dst : Dest)
  /-- An error of a routine declared outside text.go (`NullAssignTo`). -/
  | external (code : Nat)
  /-- Not an error value: the run-time panic `comparing uncomparable type`
  of the comparison `value2 != value` in `Set`.  The call is abandoned and
  nothing has been written. -/
  | comparingUncomparable
  /-- Not an error value: the compiler's rejection of the conversions
  `int64(value)` and `uint64(value)` in the two integer cases of `Set`,
  where `value` has the type `interface{}` (`cannot convert value (variable
  of type interface{}) to type int64: need type assertion`).  The clause has
  no behaviour and nothing is written. -/
  | invalidConversion
  deriving DecidableEq, Repr

/-! ## Library routines -/

/-- The built-in `append(buf, s...)` for a byte slice and a string: with
nothing to add the slice is returned as it is (a nil slice stays nil). -/
def append (buf : ByteSlice) (s : GoString) : ByteSlice :=
  match s with
  | [] => buf
  | _ :: _ => some (buf.getD [] ++ s)

/-- The conversion `string(b)` of a byte slice. -/
def stringOfBytes (b : ByteSlice) : GoString := b.getD []

/-- The conversion `[]byte(s)` of a string: a fresh non-nil slice. -/
def bytesOfString (s : GoString) : ByteSlice := some s

/-- The statements `c := make([]byte, len(src)); copy(c, src)`: a fresh
non-nil slice with the contents of `src`. -/
def makeCopy (src : ByteSlice) : ByteSlice := some (src.getD [])

/-- The statements `*v = make([]byte, len(s)); copy(*v, s)` for a string `s`:
a fresh non-nil slice with the bytes of `s`. -/
def makeCopyOfString (s : GoString) : ByteSlice := some s

/-- The digit loop of `strconv`: the decimal digits of `u` put before `acc`. -/
def formatBits : Nat → Nat → List Nat → List Nat
  | 0, _, acc => acc
  | fuel + 1, u, acc =>
    if u < 10 then (48 + u) :: acc
    else formatBits fuel (u / 10) ((48 + u % 10) :: acc)

/-- Go `strconv.FormatUint(u, 10)` for a 64-bit `u` (at most 20 digits). -/
def formatUint (u : Nat) : GoString := formatBits 20 u []

/-- Go `strconv.FormatInt(i, 10)` for a 64-bit `i`: a minus sign and the
digits of the magnitude, which is computed in unsigned 64-bit arithmetic. -/
def formatInt (i : Int) : GoString :=
  if i < 0 then 45 :: formatBits 20 ((2 ^ 64 - (i % 2 ^ 64).toNat) % 2 ^ 64) []
  else formatBits 20 i.toNat []

/-- Modelled from the spec: `underlyingStringType` is not in text.go.  When
the source is of a defined type whose representation is a string it yields
the primitive string, otherwise nothing. -/
def underlyingStringType : AnyValue → Option AnyValue
  | .definedString s => some (.string s)
  | .getterSelf (some s) => some (.string s)
  | _ => none

/-! ## The methods of `Text` -/

/-- The measure that makes the recursion of `Set` well founded. -/
def AnyValue.depth : AnyValue → Nat
  | .getter got => got.depth + 1
  | .definedString _ => 1
  | .getterSelf _ => 1
  | _ => 0

/-- Go `func (dst *Text) Set(src interface{}) error`.  The nil check comes
first, then the unwrap through `Get` with the comparison `value2 != value`,
then the type switch.  Each of the two integer cases lists several types, so
in its body `value` has the type of `src`, `interface{}`, and the
conversions `int64(value)` and `uint64(value)` are not valid Go: the two
clauses have no behaviour, which is the outcome `invalidConversion` with
nothing written. -/
def Text.Set (dst : Text) (src : AnyValue) : Text × Option Error :=
  match src with
  | .nil => ({ String := [], Status := Null }, none)
  | .getter got => Text.Set dst got
  | .getterUncomparable _ => (dst, some .comparingUncomparable)
  | .string value => ({ String := value, Status := Present }, none)
  | .stringPtr value =>
    match value with
    | none => ({ String := [], Status := Null }, none)
    | some s => ({ String := s, Status := Present }, none)
  | .bytes value =>
    match value with
    | none => ({ String := [], Status := Null }, none)
    | some _ => ({ String := stringOfBytes value, Status := Present }, none)
  | .int _ | .int64 _ | .int32 _ | .int16 _ | .int8 _ =>
    (dst, some .invalidConversion)
  | .uint _ | .uint64 _ | .uint32 _ | .uint16 _ | .uint8 _ =>
    (dst, some .invalidConversion)
  | value =>
    match _h : underlyingStringType value with
    | some originalSrc => Text.Set dst originalSrc
    | none => (dst, some (.cannotConvert value))
termination_by src.depth
decreasing_by
  all_goals simp_wf
  · simp [AnyValue.depth]
  · cases value <;> simp [underlyingStringType] at _h
    · subst _h; simp [AnyValue.depth]
    · rename_i u
      cases u <;> simp at _h
      subst _h; simp [AnyValue.depth]

/-- Go `func (dst Text) Get() interface{}`. -/
def Text.Get (dst : Text) : AnyValue :=
  if dst.Status = Present then .string dst.String
  else if dst.Status = Null then .nil
  else .status dst.Status

/-- Go `func (src *Text) AssignTo(dst interface{}) error`: the container and
the destination after the call, and the error.

`GetAssignToDstType` and `NullAssignTo` are declared outside text.go and are
parameters here.  `GetAssignToDstType dst` is `none` when the Go function
returns `retry = false`; otherwise it gives the next destination and how the
state of that destination after the retry shows in `dst`.  The retry is a
recursive call, so the function takes fuel, used up by the retries only; the
result is `none` when the fuel runs out. -/
def Text.AssignTo (GetAssignToDstType : Dest → Option (Dest × (Dest → Dest)))
    (NullAssignTo : Dest → Dest × Option Error) :
    Nat → Text → Dest → Option (Text × Dest × Option Error)
  | fuel, src, dst =>
    if src.Status = Present then
      match dst with
      | .stringRef _ => some (src, .stringRef src.String, none)
      | .bytesRef _ => some (src, .bytesRef (makeCopyOfString src.String), none)
      | .other tag =>
        match GetAssignToDstType (.other tag) with
        | some (nextDst, back) =>
          match fuel with
          | 0 => none
          | fuel + 1 =>
            (Text.AssignTo GetAssignToDstType NullAssignTo fuel src nextDst).map
              (fun r => (r.1, back r.2.1, r.2.2))
        | none => some (src, .other tag, some (.unableToAssign (.other tag)))
    else if src.Status = Null then
      some (src, (NullAssignTo dst).1, (NullAssignTo dst).2)
    else some (src, dst, some (.cannotDecode src dst))

/-- Modelled from the spec: the constant `TextFormatCode` is declared outside
text.go.  The spec has two wire formats, text and binary; this is the format
code of the text format (0 in the PostgreSQL protocol). -/
def TextFormatCode : Int := 0

/-- Modelled from the spec: the constant `BinaryFormatCode` is declared
outside text.go: the format code of the binary format (1 in the PostgreSQL
protocol). -/
def BinaryFormatCode : Int := 1

/-- Go `func (Text) PreferredResultFormat() int16`. -/
def Text.PreferredResultFormat (_src : Text) : Int := TextFormatCode

/-- Go `func (dst *Text) DecodeText(ci *ConnInfo, src []byte) error`. -/
def Text.DecodeText (_dst : Text) (_ci : Option ConnInfo) (src : ByteSlice) :
    Text × Option Error :=
  match src with
  | none => ({ String := [], Status := Null }, none)
  | some _ => ({ String := stringOfBytes src, Status := Present }, none)

/-- Go `func (dst *Text) DecodeBinary(ci *ConnInfo, src []byte) error`. -/
def Text.DecodeBinary (dst : Text) (ci : Option ConnInfo) (src : ByteSlice) :
    Text × Option Error :=
  Text.DecodeText dst ci src

/-- Go `func (Text) PreferredParamFormat() int16`. -/
def Text.PreferredParamFormat (_src : Text) : Int := TextFormatCode

/-- Go `func (src Text) EncodeText(ci *ConnInfo, buf []byte) ([]byte, error)`. -/
def Text.EncodeText (src : Text) (_ci : Option ConnInfo) (buf : ByteSlice) :
    ByteSlice × Option Error :=
  if src.Status = Null then (none, none)
  else if src.Status = Undefined then (none, some .errUndefined)
  else (append buf src.String, none)

/-- Go `func (src Text) EncodeBinary(ci *ConnInfo, buf []byte) ([]byte, error)`. -/
def Text.EncodeBinary (src : Text) (ci : Option ConnInfo) (buf : ByteSlice) :
    ByteSlice × Option Error :=
  Text.EncodeText src ci buf

/-- Go `func (dst *Text) Scan(src interface{}) error`. -/
def Text.Scan (dst : Text) (src : AnyValue) : Text × Option Error :=
  match src with
  | .nil => ({ String := [], Status := Null }, none)
  | .string s => Text.DecodeText dst none (bytesOfString s)
  | .bytes b => Text.DecodeText dst none (makeCopy b)
  | v => (dst, some (.cannotScan v))

/-- Go `func (src Text) Value() (driver.Value, error)`. -/
def Text.Value (src : Text) : AnyValue × Option Error :=
  if src.Status = Present then (.string src.String, none)
  else if src.Status = Null then (.nil, none)
  else (.nil, some .errUndefined)

/-! ## Library routines: `unicode/utf8` and `unicode/utf16`

Runes are natural numbers.  The shifts and masks of the Go code are written
as multiplications, divisions and remainders by powers of two. -/

/-- Go `utf8.RuneError`, the replacement character U+FFFD. -/
def RuneError : Nat := 0xFFFD

/-- The table `first` of `unicode/utf8` with its accept ranges: for a leading
byte at least 0x80, the length of the sequence and the bounds of the second
byte; `none` for a byte that starts no sequence. -/
def first (p0 : Nat) : Option (Nat × Nat × Nat) :=
  if p0 < 0xC2 then none
  else if p0 < 0xE0 then some (2, 0x80, 0xBF)
  else if p0 = 0xE0 then some (3, 0xA0, 0xBF)
  else if p0 = 0xED then some (3, 0x80, 0x9F)
  else if p0 < 0xF0 then some (3, 0x80, 0xBF)
  else if p0 = 0xF0 then some (4, 0x90, 0xBF)
  else if p0 < 0xF4 then some (4, 0x80, 0xBF)
  else if p0 = 0xF4 then some (4, 0x80, 0x8F)
  else none

/-- Go `utf8.DecodeRune(p)`: the first rune of `p` and its width in bytes;
`(RuneError, 1)` for an encoding that is not valid, `(RuneError, 0)` for the
empty input. -/
def decodeRune (p : List Nat) : Nat × Nat :=
  match p with
  | [] => (RuneError, 0)
  | p0 :: rest =>
    if p0 < 0x80 then (p0, 1)
    else
      match first p0 with
      | none => (RuneError, 1)
      | some (sz, lo, hi) =>
        if p.length < sz then (RuneError, 1)
        else
          match rest with
          | [] => (RuneError, 1)
          | b1 :: rest1 =>
            if b1 < lo ∨ hi < b1 then (RuneError, 1)
            else if sz ≤ 2 then (p0 % 32 * 64 + b1 % 64, 2)
            else
              match rest1 with
              | [] => (RuneError, 1)
              | b2 :: rest2 =>
                if b2 < 0x80 ∨ 0xBF < b2 then (RuneError, 1)
                else if sz ≤ 3 then (p0 % 16 * 4096 + b1 % 64 * 64 + b2 % 64, 3)
                else
                  match rest2 with
                  | [] => (RuneError, 1)
                  | b3 :: _ =>
                    if b3 < 0x80 ∨ 0xBF < b3 then (RuneError, 1)
                    else (p0 % 8 * 262144 + b1 % 64 * 4096 + b2 % 64 * 64 + b3 % 64, 4)

/-- Go `utf8.EncodeRune`: the UTF-8 encoding of the rune `r`; a surrogate or
a value above U+10FFFF is encoded as `RuneError`. -/
def encodeRune (r : Nat) : List Nat :=
  if r ≤ 0x7F then [r]
  else if r ≤ 0x7FF then [0xC0 + r / 64, 0x80 + r % 64]
  else if 0x10FFFF < r ∨ (0xD800 ≤ r ∧ r ≤ 0xDFFF) then [0xEF, 0xBF, 0xBD]
  else if r ≤ 0xFFFF then [0xE0 + r / 4096, 0x80 + r / 64 % 64, 0x80 + r % 64]
  else [0xF0 + r / 262144, 0x80 + r / 4096 % 64, 0x80 + r / 64 % 64, 0x80 + r % 64]

/-- The loop of Go `utf8.Valid`: no decoding step gives `(RuneError, 1)`. -/
def validLoop : Nat → List Nat → Bool
  | _, [] => true
  | 0, _ :: _ => false
  | fuel + 1, c :: rest =>
    if c < 0x80 then validLoop fuel rest
    else
      let (r, size) := decodeRune (c :: rest)
      if r = RuneError ∧ size = 1 then false
      else validLoop fuel ((c :: rest).drop size)

/-- Go `utf8.Valid(p)` / `utf8.ValidString(s)`. -/
def utf8Valid (p : List Nat) : Bool := validLoop p.length p

/-- Go `utf16.IsSurrogate`. -/
def isSurrogate (r : Nat) : Bool := 0xD800 ≤ r && r < 0xE000

/-- Go `utf16.DecodeRune(r1, r2)`; `r2 = none` is the value -1 that `getu4`
returns when there is no escape to read. -/
def utf16DecodeRune (r1 : Nat) (r2 : Option Nat) : Nat :=
  match r2 with
  | none => RuneError
  | some r2 =>
    if 0xD800 ≤ r1 ∧ r1 < 0xDC00 ∧ 0xDC00 ≤ r2 ∧ r2 < 0xE000 then
      (r1 - 0xD800) * 1024 + (r2 - 0xDC00) + 0x10000
    else RuneError

/-! ## Library routines: `encoding/json` -/

/-- The table `htmlSafeSet` of `encoding/json`, for a byte below 0x80: the
characters written without escaping. -/
def htmlSafeSet (b : Nat) : Bool :=
  0x20 ≤ b && b ≠ 0x22 && b ≠ 0x26 && b ≠ 0x3C && b ≠ 0x3E && b ≠ 0x5C

/-- The digit `hex[n]` of the string `0123456789abcdef`, for `n` below 16. -/
def hex (n : Nat) : Nat := if n < 10 then 48 + n else 87 + n

/-- The loop of `encodeState.string` with HTML escaping on (as `json.Marshal`
sets it), run on the part of the string not yet written. -/
def encodeStringLoop : Nat → GoString → List Nat
  | _, [] => []
  | 0, _ :: _ => []
  | fuel + 1, b :: rest =>
    if b < 0x80 then
      if htmlSafeSet b then b :: encodeStringLoop fuel rest
      else if b = 0x5C ∨ b = 0x22 then 0x5C :: b :: encodeStringLoop fuel rest
      else if b = 0x0A then 0x5C :: 0x6E :: encodeStringLoop fuel rest
      else if b = 0x0D then 0x5C :: 0x72 :: encodeStringLoop fuel rest
      else if b = 0x09 then 0x5C :: 0x74 :: encodeStringLoop fuel rest
      else
        0x5C :: 0x75 :: 0x30 :: 0x30 :: hex (b / 16) :: hex (b % 16) ::
          encodeStringLoop fuel rest
    else
      let (c, size) := decodeRune (b :: rest)
      if c = RuneError ∧ size = 1 then
        0x5C :: 0x75 :: 0x66 :: 0x66 :: 0x66 :: 0x64 :: encodeStringLoop fuel rest
      else if c = 0x2028 ∨ c = 0x2029 then
        0x5C :: 0x75 :: 0x32 :: 0x30 :: 0x32 :: hex (c % 16) ::
          encodeStringLoop fuel ((b :: rest).drop size)
      else
        (b :: rest).take size ++ encodeStringLoop fuel ((b :: rest).drop size)

/-- Go `json.Marshal(s)` for a string `s`: the quoted, escaped string. -/
def jsonMarshalString (s : GoString) : List Nat :=
  0x22 :: encodeStringLoop s.length s ++ [0x22]

/-- The entries of the scanner's `parseState` stack. -/
inductive ParseState where
  | parseObjectKey
  | parseObjectValue
  | parseArrayValue
  deriving DecidableEq, Repr

/-- The codes a scanner step returns. -/
inductive ScanCode where
  | scanContinue
  | scanBeginLiteral
  | scanBeginObject
  | scanObjectKey
  | scanObjectValue
  | scanEndObject
  | scanBeginArray
  | scanArrayValue
  | scanEndArray
  | scanSkipSpace
  | scanEnd
  | scanError
  deriving DecidableEq, Repr

/-- The state functions a scanner's `step` field can hold. -/
inductive Step where
  | stateBeginValueOrEmpty
  | stateBeginValue
  | stateBeginStringOrEmpty
  | stateBeginString
  | stateEndValue
  | stateEndTop
  | stateInString
  | stateInStringEsc
  | stateInStringEscU
  | stateInStringEscU1
  | stateInStringEscU12
  | stateInStringEscU123
  | stateNeg
  | state1
  | state0
  | stateDot
  | stateDot0
  | stateE
  | stateESign
  | stateE0
  | stateT
  | stateTr
  | stateTru
  | stateF
  | stateFa
  | stateFal
  | stateFals
  | stateN
  | stateNu
  | stateNul
  | stateError
  deriving DecidableEq, Repr

/-- The JSON scanner of `encoding/json`: the current state function, the
stack of open composite values (top first), whether an error was recorded and
whether the top-level value has ended. -/
structure Scanner where
  step : Step
  parseState : List ParseState
  err : Bool
  endTop : Bool
  deriving DecidableEq, Repr

/-- Go `isSpace`. -/
def isSpace (c : Nat) : Bool := c = 0x20 || c = 0x09 || c = 0x0D || c = 0x0A

/-- Go `(*scanner).reset`. -/
def Scanner.reset : Scanner :=
  { step := .stateBeginValue, parseState := [], err := false, endTop := false }

/-- Go `(*scanner).error`: record a syntax error. -/
def Scanner.error (s : Scanner) : Scanner × ScanCode :=
  ({ s with step := .stateError, err := true }, .scanError)

/-- Go `(*scanner).pushParseState`. -/
def Scanner.pushParseState (s : Scanner) (p : ParseState) : Scanner :=
  { s with parseState := p :: s.parseState }

/-- Go `(*scanner).popParseState`. -/
def Scanner.popParseState (s : Scanner) : Scanner :=
  match s.parseState.drop 1 with
  | [] => { s with parseState := [], step := .stateEndTop, endTop := true }
  | ps => { s with parseState := ps, step := .stateEndValue }

/-- Go `stateEndTop`: after the top-level value only space may follow; the
complaint about another byte is recorded and reported on the next call. -/
def stateEndTop (s : Scanner) (c : Nat) : Scanner × ScanCode :=
  if !isSpace c then ((s.error).1, .scanEnd) else (s, .scanEnd)

/-- Go `stateEndValue`. -/
def stateEndValue (s : Scanner) (c : Nat) : Scanner × ScanCode :=
  match s.parseState with
  | [] => stateEndTop { s with step := .stateEndTop, endTop := true } c
  | ps :: below =>
    if isSpace c then ({ s with step := .stateEndValue }, .scanSkipSpace)
    else
      match ps with
      | .parseObjectKey =>
        if c = 0x3A then
          ({ s with parseState := .parseObjectValue :: below, step := .stateBeginValue },
            .scanObjectKey)
        else s.error
      | .parseObjectValue =>
        if c = 0x2C then
          ({ s with parseState := .parseObjectKey :: below, step := .stateBeginString },
            .scanObjectValue)
        else if c = 0x7D then (s.popParseState, .scanEndObject)
        else s.error
      | .parseArrayValue =>
        if c = 0x2C then ({ s with step := .stateBeginValue }, .scanArrayValue)
        else if c = 0x5D then (s.popParseState, .scanEndArray)
        else s.error

/-- Go `stateBeginValue`. -/
def stateBeginValue (s : Scanner) (c : Nat) : Scanner × ScanCode :=
  if isSpace c then (s, .scanSkipSpace)
  else if c = 0x7B then
    (({ s with step := .stateBeginStringOrEmpty } : Scanner).pushParseState .parseObjectKey,
      .scanBeginObject)
  else if c = 0x5B then
    (({ s with step := .stateBeginValueOrEmpty } : Scanner).pushParseState .parseArrayValue,
      .scanBeginArray)
  else if c = 0x22 then ({ s with step := .stateInString }, .scanBeginLiteral)
  else if c = 0x2D then ({ s with step := .stateNeg }, .scanBeginLiteral)
  else if c = 0x30 then ({ s with step := .state0 }, .scanBeginLiteral)
  else if c = 0x74 then ({ s with step := .stateT }, .scanBeginLiteral)
  else if c = 0x66 then ({ s with step := .stateF }, .scanBeginLiteral)
  else if c = 0x6E then ({ s with step := .stateN }, .scanBeginLiteral)
  else if 0x31 ≤ c ∧ c ≤ 0x39 then ({ s with step := .state1 }, .scanBeginLiteral)
  else s.error

/-- Go `stateBeginValueOrEmpty`. -/
def stateBeginValueOrEmpty (s : Scanner) (c : Nat) : Scanner × ScanCode :=
  if isSpace c then (s, .scanSkipSpace)
  else if c = 0x5D then stateEndValue s c
  else stateBeginValue s c

/-- Go `stateBeginString`. -/
def stateBeginString (s : Scanner) (c : Nat) : Scanner × ScanCode :=
  if isSpace c then (s, .scanSkipSpace)
  else if c = 0x22 then ({ s with step := .stateInString }, .scanBeginLiteral)
  else s.error

/-- Go `stateBeginStringOrEmpty`. -/
def stateBeginStringOrEmpty (s : Scanner) (c : Nat) : Scanner × ScanCode :=
  if isSpace c then (s, .scanSkipSpace)
  else if c = 0x7D then
    stateEndValue { s with parseState := .parseObjectValue :: s.parseState.drop 1 } c
  else stateBeginString s c

/-- Go `stateInString`. -/
def stateInString (s : Scanner) (c : Nat) : Scanner × ScanCode :=
  if c = 0x22 then ({ s with step := .stateEndValue }, .scanContinue)
  else if c = 0x5C then ({ s with step := .stateInStringEsc }, .scanContinue)
  else if c < 0x20 then s.error
  else (s, .scanContinue)

/-- Go `stateInStringEsc`. -/
def stateInStringEsc (s : Scanner) (c : Nat) : Scanner × ScanCode :=
  if c = 0x62 ∨ c = 0x66 ∨ c = 0x6E ∨ c = 0x72 ∨ c = 0x74 ∨ c = 0x5C ∨ c = 0x2F ∨ c = 0x22 then
    ({ s with step := .stateInString }, .scanContinue)
  else if c = 0x75 then ({ s with step := .stateInStringEscU }, .scanContinue)
  else s.error

/-- The test for a hexadecimal digit of the `stateInStringEscU` functions. -/
def isHexDigit (c : Nat) : Bool :=
  (0x30 ≤ c && c ≤ 0x39) || (0x61 ≤ c && c ≤ 0x66) || (0x41 ≤ c && c ≤ 0x46)

/-- Go `stateInStringEscU`, `stateInStringEscU1`, `stateInStringEscU12` and
`stateInStringEscU123`: on a hexadecimal digit continue with `next`. -/
def stateInStringEscHex (next : Step) (s : Scanner) (c : Nat) : Scanner × ScanCode :=
  if isHexDigit c then ({ s with step := next }, .scanContinue) else s.error

/-- Go `stateNeg`. -/
def stateNeg (s : Scanner) (c : Nat) : Scanner × ScanCode :=
  if c = 0x30 then ({ s with step := .state0 }, .scanContinue)
  else if 0x31 ≤ c ∧ c ≤ 0x39 then ({ s with step := .state1 }, .scanContinue)
  else s.error

/-- Go `state0`. -/
def state0 (s : Scanner) (c : Nat) : Scanner × ScanCode :=
  if c = 0x2E then ({ s with step := .stateDot }, .scanContinue)
  else if c = 0x65 ∨ c = 0x45 then ({ s with step := .stateE }, .scanContinue)
  else stateEndValue s c

/-- Go `state1`. -/
def state1 (s : Scanner) (c : Nat) : Scanner × ScanCode :=
  if 0x30 ≤ c ∧ c ≤ 0x39 then ({ s with step := .state1 }, .scanContinue)
  else state0 s c

/-- Go `stateDot`. -/
def stateDot (s : Scanner) (c : Nat) : Scanner × ScanCode :=
  if 0x30 ≤ c ∧ c ≤ 0x39 then ({ s with step := .stateDot0 }, .scanContinue)
  else s.error

/-- Go `stateDot0`. -/
def stateDot0 (s : Scanner) (c : Nat) : Scanner × ScanCode :=
  if 0x30 ≤ c ∧ c ≤ 0x39 then (s, .scanContinue)
  else if c = 0x65 ∨ c = 0x45 then ({ s with step := .stateE }, .scanContinue)
  else stateEndValue s c

/-- Go `stateESign`. -/
def stateESign (s : Scanner) (c : Nat) : Scanner × ScanCode :=
  if 0x30 ≤ c ∧ c ≤ 0x39 then ({ s with step := .stateE0 }, .scanContinue)
  else s.error

/-- Go `stateE`. -/
def stateE (s : Scanner) (c : Nat) : Scanner × ScanCode :=
  if c = 0x2B ∨ c = 0x2D then ({ s with step := .stateESign }, .scanContinue)
  else stateESign s c

/-- Go `stateE0`. -/
def stateE0 (s : Scanner) (c : Nat) : Scanner × ScanCode :=
  if 0x30 ≤ c ∧ c ≤ 0x39 then (s, .scanContinue)
  else stateEndValue s c

/-- Go `stateT`, `stateTr`, ..., `stateNul`: inside a literal `true`, `false`
or `null`, the byte `want` is expected and `next` follows it. -/
def stateLiteral (want : Nat) (next : Step) (s : Scanner) (c : Nat) : Scanner × ScanCode :=
  if c = want then ({ s with step := next }, .scanContinue) else s.error

/-- The call `s.step(s, c)`: run the state function the scanner holds. -/
def Scanner.run (s : Scanner) (c : Nat) : Scanner × ScanCode :=
  match s.step with
  | .stateBeginValueOrEmpty => stateBeginValueOrEmpty s c
  | .stateBeginValue => stateBeginValue s c
  | .stateBeginStringOrEmpty => stateBeginStringOrEmpty s c
  | .stateBeginString => stateBeginString s c
  | .stateEndValue => stateEndValue s c
  | .stateEndTop => stateEndTop s c
  | .stateInString => stateInString s c
  | .stateInStringEsc => stateInStringEsc s c
  | .stateInStringEscU => stateInStringEscHex .stateInStringEscU1 s c
  | .stateInStringEscU1 => stateInStringEscHex .stateInStringEscU12 s c
  | .stateInStringEscU12 => stateInStringEscHex .stateInStringEscU123 s c
  | .stateInStringEscU123 => stateInStringEscHex .stateInString s c
  | .stateNeg => stateNeg s c
  | .state1 => state1 s c
  | .state0 => state0 s c
  | .stateDot => stateDot s c
  | .stateDot0 => stateDot0 s c
  | .stateE => stateE s c
  | .stateESign => stateESign s c
  | .stateE0 => stateE0 s c
  | .stateT => stateLiteral 0x72 .stateTr s c
  | .stateTr => stateLiteral 0x75 .stateTru s c
  | .stateTru => stateLiteral 0x65 .stateEndValue s c
  | .stateF => stateLiteral 0x61 .stateFa s c
  | .stateFa => stateLiteral 0x6C .stateFal s c
  | .stateFal => stateLiteral 0x73 .stateFals s c
  | .stateFals => stateLiteral 0x65 .stateEndValue s c
  | .stateN => stateLiteral 0x75 .stateNu s c
  | .stateNu => stateLiteral 0x6C .stateNul s c
  | .stateNul => stateLiteral 0x6C .stateEndValue s c
  | .stateError => (s, .scanError)

/-- Go `(*scanner).eof`. -/
def Scanner.eof (s : Scanner) : ScanCode :=
  if s.err then .scanError
  else if s.endTop then .scanEnd
  else if (s.run 0x20).1.endTop then .scanEnd
  else .scanError

/-- The loop of Go `checkValid`: feed the bytes to the scanner; `none` when a
step returns `scanError`. -/
def checkValidLoop (s : Scanner) : List Nat → Option Scanner
  | [] => some s
  | c :: rest =>
    if (s.run c).2 = .scanError then none else checkValidLoop (s.run c).1 rest

/-- Go `checkValid(data, scan)`: is `data` one JSON value, with optional
space around it. -/
def checkValid (data : List Nat) : Bool :=
  match checkValidLoop Scanner.reset data with
  | none => false
  | some s => s.eof != .scanError

/-- The switch of Go `getu4` on one character: the value of a hexadecimal
digit, `none` for another character. -/
def hexVal (c : Nat) : Option Nat :=
  if 0x30 ≤ c ∧ c ≤ 0x39 then some (c - 0x30)
  else if 0x61 ≤ c ∧ c ≤ 0x66 then some (c - 0x61 + 10)
  else if 0x41 ≤ c ∧ c ≤ 0x46 then some (c - 0x41 + 10)
  else none

/-- Go `getu4`: the value of the escape `\uXXXX` at the start of `s`, `none`
(the Go code returns -1) if there is none. -/
def getu4 (s : List Nat) : Option Nat :=
  match s with
  | b :: u :: c1 :: c2 :: c3 :: c4 :: _ =>
    if b ≠ 0x5C ∨ u ≠ 0x75 then none
    else
      match hexVal c1, hexVal c2, hexVal c3, hexVal c4 with
      | some d1, some d2, some d3, some d4 => some (((d1 * 16 + d2) * 16 + d3) * 16 + d4)
      | _, _, _, _ => none
  | _ => none

/-- The first loop of Go `unquoteBytes`: skip the characters that need no
unquoting; the result is the rest of `s` from the first unusual character (a
backslash, a quote, a control character, a byte that is not valid UTF-8). -/
def skipUsual : Nat → List Nat → List Nat
  | _, [] => []
  | 0, c :: rest => c :: rest
  | fuel + 1, c :: rest =>
    if c = 0x5C ∨ c = 0x22 ∨ c < 0x20 then c :: rest
    else if c < 0x80 then skipUsual fuel rest
    else
      let (rr, size) := decodeRune (c :: rest)
      if rr = RuneError ∧ size = 1 then c :: rest
      else skipUsual fuel ((c :: rest).drop size)

/-- The second loop of Go `unquoteBytes`: unquote `s`, the part of the literal
not yet read; `none` when the Go code returns `ok = false`. -/
def unquoteLoop : Nat → List Nat → Option (List Nat)
  | _, [] => some []
  | 0, _ :: _ => none
  | fuel + 1, c :: rest =>
    if c = 0x5C then
      match rest with
      | [] => none
      | e :: rest2 =>
        if e = 0x22 ∨ e = 0x5C ∨ e = 0x2F ∨ e = 0x27 then
          (unquoteLoop fuel rest2).map (fun out => e :: out)
        else if e = 0x62 then (unquoteLoop fuel rest2).map (fun out => 0x08 :: out)
        else if e = 0x66 then (unquoteLoop fuel rest2).map (fun out => 0x0C :: out)
        else if e = 0x6E then (unquoteLoop fuel rest2).map (fun out => 0x0A :: out)
        else if e = 0x72 then (unquoteLoop fuel rest2).map (fun out => 0x0D :: out)
        else if e = 0x74 then (unquoteLoop fuel rest2).map (fun out => 0x09 :: out)
        else if e = 0x75 then
          match getu4 (c :: rest) with
          | none => none
          | some rr =>
            if isSurrogate rr then
              if utf16DecodeRune rr (getu4 (rest.drop 5)) ≠ RuneError then
                (unquoteLoop fuel (rest.drop 11)).map
                  (fun out => encodeRune (utf16DecodeRune rr (getu4 (rest.drop 5))) ++ out)
              else (unquoteLoop fuel (rest.drop 5)).map (fun out => encodeRune RuneError ++ out)
            else (unquoteLoop fuel (rest.drop 5)).map (fun out => encodeRune rr ++ out)
        else none
    else if c = 0x22 ∨ c < 0x20 then none
    else if c < 0x80 then (unquoteLoop fuel rest).map (fun out => c :: out)
    else
      (unquoteLoop fuel ((c :: rest).drop (decodeRune (c :: rest)).2)).map
        (fun out => encodeRune (decodeRune (c :: rest)).1 ++ out)

/-- Go `unquoteBytes(item)`: the string a quoted JSON string literal
denotes; `none` when the Go code returns `ok = false`. -/
def unquoteBytes (item : List Nat) : Option (List Nat) :=
  if item.length < 2 ∨ item.head? ≠ some 0x22 ∨ item.getLast? ≠ some 0x22 then none
  else
    let s := (item.drop 1).dropLast
    let unusual := skipUsual s.length s
    if unusual = [] then some s
    else
      (unquoteLoop unusual.length unusual).map
        (fun out => s.take (s.length - unusual.length) ++ out)

/-- The string case of Go `(*decodeState).rescanLiteral`, run on the bytes
after the opening quote: the bytes of the literal up to its closing quote,
that quote included (a backslash takes the next byte with it). -/
def rescanLiteral : List Nat → List Nat
  | [] => []
  | [c] => [c]
  | c :: d :: rest =>
    if c = 0x5C then c :: d :: rescanLiteral rest
    else if c = 0x22 then [c]
    else c :: rescanLiteral (d :: rest)

/-- Go `json.Unmarshal(data, &s)` for `var s *string`: the value left in `s`
(`none` is the nil pointer) or the error.  The input is checked by
`checkValid`; then the decoder skips leading space and stores the value it
finds: an array, an object, a boolean and a number do not fit a string
(`UnmarshalTypeError`), `null` sets the pointer to nil, a string literal is
unquoted.  The decoder would stop with a panic if a literal that passed
`checkValid` could not be unquoted or if there were no value; these two
branches give `jsonSyntax` here and are never taken
(`jsonUnmarshalStringPtr_valid`). -/
def jsonUnmarshalStringPtr (data : List Nat) : Except Error (Option GoString) :=
  if checkValid data = false then .error .jsonSyntax
  else
    match data.dropWhile isSpace with
    | [] => .error .jsonSyntax
    | c :: rest =>
      if c = 0x5B then .error (.jsonType 2)
      else if c = 0x7B then .error (.jsonType 3)
      else if c = 0x6E then .ok none
      else if c = 0x74 ∨ c = 0x66 then .error (.jsonType 0)
      else if c = 0x22 then
        match unquoteBytes (c :: rescanLiteral rest) with
        | some s => .ok (some s)
        | none => .error .jsonSyntax
      else .error (.jsonType 1)

/-! ## The JSON methods of `Text` -/

/-- Go `func (src Text) MarshalJSON() ([]byte, error)`. -/
def Text.MarshalJSON (src : Text) : ByteSlice × Option Error :=
  if src.Status = Present then (some (jsonMarshalString src.String), none)
  else if src.Status = Null then (some [0x6E, 0x75, 0x6C, 0x6C], none)
  else if src.Status = Undefined then (none, some .errUndefined)
  else (none, some .errBadStatus)

/-- Go `func (dst *Text) UnmarshalJSON(b []byte) error`. -/
def Text.UnmarshalJSON (dst : Text) (b : List Nat) : Text × Option Error :=
  match jsonUnmarshalStringPtr b with
  | .error err => (dst, some err)
  | .ok s =>
    match s with
    | none => ({ String := [], Status := Null }, none)
    | some str => ({ String := str, Status := Present }, none)

/-! ## Reference definitions for the claims -/

/-- The source shapes `Scan` decodes: the nil interface value, a string, a
byte slice. -/
def AnyValue.isScanShape : AnyValue → Bool
  | .nil => true
  | .string _ => true
  | .bytes _ => true
  | _ => false


/-- Does the value expose the unwrap capability, a method `Get() interface{}`. -/
def AnyValue.hasGet : AnyValue → Bool
  | .getter _ => true
  | .getterSelf _ => true
  | .getterUncomparable _ => true
  | _ => false

/-- Is the value a string, a string reference, a byte slice, a signed or an
unsigned integer: the shapes the type switch of `Set` names. -/
def AnyValue.isSetShape : AnyValue → Bool
  | .string _ => true
  | .stringPtr _ => true
  | .bytes _ => true
  | .int _ => true
  | .int64 _ => true
  | .int32 _ => true
  | .int16 _ => true
  | .int8 _ => true
  | .uint _ => true
  | .uint64 _ => true
  | .uint32 _ => true
  | .uint16 _ => true
  | .uint8 _ => true
  | _ => false

/-- What a container written by a decoding or ingesting call looks like: the
status is `Null` or `Present`, not `Undefined`, and a `Null` container has
the empty payload. -/
def Text.IsWritten (t : Text) : Prop :=
  (t.Status = Null ∨ t.Status = Present) ∧ t.Status ≠ Undefined ∧
    (t.Status = Null → t.String = [])

instance (t : Text) : Decidable t.IsWritten := by
  unfold Text.IsWritten; infer_instance

/-! ### Reading decimal numerals (the reference the payload of `Set` is
compared with) -/

/-- The number a sequence of decimal digits denotes, most significant first. -/
def decimalValue (p : GoString) : Nat :=
  p.foldl (fun a d => 10 * a + (d - 48)) 0

/-- A canonical unsigned decimal numeral: at least one character, every
character a digit `0`..`9`, and no leading zero except in the numeral `0`. -/
def IsDecimal (p : GoString) : Prop :=
  p ≠ [] ∧ (∀ d ∈ p, 48 ≤ d ∧ d ≤ 57) ∧ (p.head? = some 48 → p = [48])

instance (p : GoString) : Decidable (IsDecimal p) := by
  unfold IsDecimal; infer_instance

/-- Parse an unsigned decimal integer. -/
def parseUint (p : GoString) : Option Nat :=
  if IsDecimal p then some (decimalValue p) else none

/-- Parse a signed decimal integer: an optional leading `-`, then a numeral. -/
def parseInt (p : GoString) : Option Int :=
  match p with
  | 45 :: ds => Option.map (fun (v : Nat) => - Int.ofNat v) (parseUint ds)
  | _ => Option.map (fun (v : Nat) => Int.ofNat v) (parseUint p)

/-! ### JSON string literals (the reference `UnmarshalJSON` is compared with)

RFC 8259, section 7: a string is a quotation mark, characters, a quotation
mark; a character is either unescaped (anything but a quotation mark, a
backslash and the control characters below U+0020) or an escape: a backslash
and one of `"`, `\`, `/`, `b`, `f`, `n`, `r`, `t`, or `u` and four
hexadecimal digits. -/

/-- The character a two-character escape `\e` denotes, if `e` is one of
`"`, `\`, `/`, `b`, `f`, `n`, `r`, `t`. -/
def escapeChar (e : Nat) : Option Nat :=
  if e = 0x22 ∨ e = 0x5C ∨ e = 0x2F then some e
  else if e = 0x62 then some 0x08
  else if e = 0x66 then some 0x0C
  else if e = 0x6E then some 0x0A
  else if e = 0x72 then some 0x0D
  else if e = 0x74 then some 0x09
  else none

/-- The bytes between the quotation marks of a JSON string literal. -/
def isStringBody : List Nat → Bool
  | [] => true
  | c :: rest =>
    if c = 0x5C then
      match rest with
      | [] => false
      | e :: rest2 =>
        if e = 0x75 then
          match rest2 with
          | h1 :: h2 :: h3 :: h4 :: rest3 =>
            isHexDigit h1 && isHexDigit h2 && isHexDigit h3 && isHexDigit h4 &&
              isStringBody rest3
          | _ => false
        else (escapeChar e).isSome && isStringBody rest2
    else decide (0x20 ≤ c) && decide (c ≠ 0x22) && isStringBody rest

/-- The string a JSON string body denotes, as UTF-8: an unescaped character
stands for itself, a two-character escape for its character, `\uXXXX` for
the code point XXXX, and a high surrogate escape followed by a low surrogate
escape for the code point of the pair.  As the documentation of
`json.Unmarshal` has it, a byte that is not valid UTF-8 and a surrogate
without its partner are replaced by U+FFFD.  The result is `none` when the
input is no string body. -/
def jsonStringValueLoop : Nat → List Nat → Option GoString
  | _, [] => some []
  | 0, _ :: _ => none
  | fuel + 1, c :: rest =>
    if c = 0x5C then
      match rest with
      | [] => none
      | e :: rest2 =>
        if e = 0x75 then
          match getu4 (c :: rest) with
          | none => none
          | some u =>
            if 0xD800 ≤ u ∧ u < 0xDC00 then
              match getu4 (rest.drop 5) with
              | none => (jsonStringValueLoop fuel (rest.drop 5)).map
                  (fun out => [0xEF, 0xBF, 0xBD] ++ out)
              | some lo =>
                if 0xDC00 ≤ lo ∧ lo < 0xE000 then
                  (jsonStringValueLoop fuel (rest.drop 11)).map
                    (fun out =>
                      encodeRune (0x10000 + (u - 0xD800) * 1024 + (lo - 0xDC00)) ++ out)
                else (jsonStringValueLoop fuel (rest.drop 5)).map
                  (fun out => [0xEF, 0xBF, 0xBD] ++ out)
            else if 0xDC00 ≤ u ∧ u < 0xE000 then
              (jsonStringValueLoop fuel (rest.drop 5)).map
                (fun out => [0xEF, 0xBF, 0xBD] ++ out)
            else (jsonStringValueLoop fuel (rest.drop 5)).map (fun out => encodeRune u ++ out)
        else
          match escapeChar e with
          | none => none
          | some b => (jsonStringValueLoop fuel rest2).map (fun out => b :: out)
    else if c = 0x22 ∨ c < 0x20 then none
    else if c < 0x80 then (jsonStringValueLoop fuel rest).map (fun out => c :: out)
    else if decodeRune (c :: rest) = (RuneError, 1) then
      (jsonStringValueLoop fuel rest).map (fun out => [0xEF, 0xBF, 0xBD] ++ out)
    else
      (jsonStringValueLoop fuel ((c :: rest).drop (decodeRune (c :: rest)).2)).map
        (fun out => (c :: rest).take (decodeRune (c :: rest)).2 ++ out)

/-- The string a JSON string body denotes. -/
def jsonStringValue (body : List Nat) : Option GoString :=
  jsonStringValueLoop body.length body

/-! ## Lemmas on `strconv` -/

theorem formatBits_digits (fuel : Nat) :
    ∀ (u : Nat) (acc : List Nat), u < 10 ^ (fuel + 1) →
      ∃ ds, formatBits (fuel + 1) u acc = ds ++ acc ∧ IsDecimal ds ∧
        decimalValue ds = u := by
  induction fuel with
  | zero =>
    intro u acc hu
    refine ⟨[48 + u], ?_, ?_, ?_⟩
    · have : u < 10 := by simpa using hu
      simp [formatBits, this]
    · have : u < 10 := by simpa using hu
      refine ⟨by simp, ?_, ?_⟩
      · intro d hd
        simp at hd
        omega
      · intro h
        simp at h
        simp [h]
    · simp [decimalValue]
  | succ n ih =>
    intro u acc hu
    by_cases h10 : u < 10
    · refine ⟨[48 + u], ?_, ?_, ?_⟩
      · simp [formatBits, h10]
      · refine ⟨by simp, ?_, ?_⟩
        · intro d hd
          simp at hd
          omega
        · intro h
          simp at h
          simp [h]
      · simp [decimalValue]
    · have hdiv : u / 10 < 10 ^ (n + 1) := by
        rw [Nat.div_lt_iff_lt_mul (by norm_num)]
        calc u < 10 ^ (n + 1 + 1) := hu
          _ = 10 ^ (n + 1) * 10 := by ring
      obtain ⟨ds, hds, ⟨hne, hdig, hlead⟩, hval⟩ := ih (u / 10) ((48 + u % 10) :: acc) hdiv
      refine ⟨ds ++ [48 + u % 10], ?_, ⟨by simp, ?_, ?_⟩, ?_⟩
      · rw [formatBits, if_neg h10, hds]
        simp
      · intro d hd
        rcases List.mem_append.mp hd with hd | hd
        · exact hdig d hd
        · simp at hd
          omega
      · intro h
        exfalso
        cases ds with
        | nil => exact hne rfl
        | cons d ds =>
          simp at h
          have h1 := hlead (by simp [h])
          rw [h1] at hval
          simp [decimalValue] at hval
          omega
      · unfold decimalValue at hval ⊢
        rw [List.foldl_append, hval]
        simp
        omega

theorem formatUint_decimal (u : Nat) (hu : u < 2 ^ 64) :
    IsDecimal (formatUint u) ∧ decimalValue (formatUint u) = u := by
  obtain ⟨ds, hds, hdec, hval⟩ := formatBits_digits 19 u [] (by omega)
  unfold formatUint
  simp at hds
  rw [hds]
  exact ⟨hdec, hval⟩

theorem parseUint_formatUint (u : Nat) (hu : u < 2 ^ 64) :
    parseUint (formatUint u) = some u := by
  obtain ⟨hdec, hval⟩ := formatUint_decimal u hu
  simp [parseUint, hdec, hval]

theorem isDecimal_head_ne_minus (p : GoString) (h : IsDecimal p) :
    ∀ ds, p ≠ 45 :: ds := by
  intro ds hp
  have := h.2.1 45 (by simp [hp])
  omega

theorem formatInt_nonneg (i : Int) (h0 : 0 ≤ i) : formatInt i = formatUint i.toNat := by
  simp [formatInt, formatUint, not_lt.mpr h0]

theorem formatInt_neg (i : Int) (h0 : i < 0) (hlo : -2 ^ 63 ≤ i) :
    formatInt i = 45 :: formatUint (-i).toNat := by
  have hm : (2 ^ 64 - (i % 2 ^ 64).toNat) % 2 ^ 64 = (-i).toNat := by
    omega
  simp only [formatInt, formatUint, if_pos h0, hm]

theorem parseInt_formatInt (n : Int) (hlo : -2 ^ 63 ≤ n) (hhi : n < 2 ^ 63) :
    parseInt (formatInt n) = some n := by
  by_cases h0 : n < 0
  · rw [formatInt_neg n h0 hlo]
    have hp := parseUint_formatUint (-n).toNat (by omega)
    simp only [parseInt, hp, Option.map_some', Int.ofNat_eq_coe]
    congr 1
    omega
  · have h0 : 0 ≤ n := not_lt.mp h0
    rw [formatInt_nonneg n h0]
    have hd := (formatUint_decimal n.toNat (by omega)).1
    have hp := parseUint_formatUint n.toNat (by omega)
    have hne := isDecimal_head_ne_minus _ hd
    unfold parseInt
    split
    · rename_i ds heq
      exact absurd heq (hne ds)
    · simp only [hp, Option.map_some', Int.ofNat_eq_coe]
      congr 1
      omega

/-! ## Lemmas on UTF-8 -/

theorem first_cases (c : Nat) :
    first c = none ∨
    (first c = some (2, 0x80, 0xBF) ∧ 0xC2 ≤ c ∧ c < 0xE0) ∨
    (∃ lo hi, first c = some (3, lo, hi) ∧ 0xE0 ≤ c ∧ c < 0xF0 ∧ 0x80 ≤ lo ∧ hi ≤ 0xBF ∧
      (c = 0xE0 → 0xA0 ≤ lo) ∧ (c = 0xED → hi ≤ 0x9F)) ∨
    (∃ lo hi, first c = some (4, lo, hi) ∧ 0xF0 ≤ c ∧ c ≤ 0xF4 ∧ 0x80 ≤ lo ∧ hi ≤ 0xBF ∧
      (c = 0xF0 → 0x90 ≤ lo) ∧ (c = 0xF4 → hi ≤ 0x8F)) := by
  unfold first
  split_ifs with h1 h2 h3 h4 h5 h6 h7 h8
  · left; rfl
  · right; left; exact ⟨rfl, by omega, by omega⟩
  · right; right; left; exact ⟨_, _, rfl, by omega, by omega, by omega, by omega, by omega, by omega⟩
  · right; right; left; exact ⟨_, _, rfl, by omega, by omega, by omega, by omega, by omega, by omega⟩
  · right; right; left; exact ⟨_, _, rfl, by omega, by omega, by omega, by omega, by omega, by omega⟩
  · right; right; right; exact ⟨_, _, rfl, by omega, by omega, by omega, by omega, by omega, by omega⟩
  · right; right; right; exact ⟨_, _, rfl, by omega, by omega, by omega, by omega, by omega, by omega⟩
  · right; right; right; exact ⟨_, _, rfl, by omega, by omega, by omega, by omega, by omega, by omega⟩
  · left; rfl

/-- The shapes of a decoding step at a byte that is not ASCII. -/
theorem decodeRune_multi (c : Nat) (rest : List Nat) (hc : 0x80 ≤ c) :
    decodeRune (c :: rest) = (RuneError, 1) ∨
    (∃ b1 t, rest = b1 :: t ∧ 0xC2 ≤ c ∧ c < 0xE0 ∧ 0x80 ≤ b1 ∧ b1 ≤ 0xBF ∧
      ∀ q, decodeRune (c :: b1 :: q) = (c % 32 * 64 + b1 % 64, 2)) ∨
    (∃ b1 b2 t, rest = b1 :: b2 :: t ∧ 0xE0 ≤ c ∧ c < 0xF0 ∧ 0x80 ≤ b1 ∧ b1 ≤ 0xBF ∧
      (c = 0xE0 → 0xA0 ≤ b1) ∧ (c = 0xED → b1 ≤ 0x9F) ∧ 0x80 ≤ b2 ∧ b2 ≤ 0xBF ∧
      ∀ q, decodeRune (c :: b1 :: b2 :: q) = (c % 16 * 4096 + b1 % 64 * 64 + b2 % 64, 3)) ∨
    (∃ b1 b2 b3 t, rest = b1 :: b2 :: b3 :: t ∧ 0xF0 ≤ c ∧ c ≤ 0xF4 ∧ 0x80 ≤ b1 ∧ b1 ≤ 0xBF ∧
      (c = 0xF0 → 0x90 ≤ b1) ∧ (c = 0xF4 → b1 ≤ 0x8F) ∧ 0x80 ≤ b2 ∧ b2 ≤ 0xBF ∧
      0x80 ≤ b3 ∧ b3 ≤ 0xBF ∧
      ∀ q, decodeRune (c :: b1 :: b2 :: b3 :: q) =
        (c % 8 * 262144 + b1 % 64 * 4096 + b2 % 64 * 64 + b3 % 64, 4)) := by
  have h80 : ¬ c < 0x80 := by omega
  rcases first_cases c with hf | ⟨hf, h1, h2⟩ | ⟨lo, hi, hf, h1, h2, h3, h4, h5, h6⟩ |
    ⟨lo, hi, hf, h1, h2, h3, h4, h5, h6⟩
  · left
    simp only [decodeRune, h80, if_false, hf]
  · cases rest with
    | nil => left; simp [decodeRune, h80, hf]
    | cons b1 t =>
      by_cases hb : b1 < 0x80 ∨ 0xBF < b1
      · left; simp [decodeRune, h80, hf, hb]
      · right; left
        refine ⟨b1, t, rfl, h1, h2, by omega, by omega, ?_⟩
        intro q
        simp [decodeRune, h80, hf, hb]
  · cases rest with
    | nil => left; simp [decodeRune, h80, hf]
    | cons b1 t =>
      by_cases hb : b1 < lo ∨ hi < b1
      · left; simp [decodeRune, h80, hf, hb]
      · cases t with
        | nil => left; simp [decodeRune, h80, hf]
        | cons b2 t =>
          by_cases hb2 : b2 < 0x80 ∨ 0xBF < b2
          · left; simp [decodeRune, h80, hf, hb, hb2]
          · right; right; left
            refine ⟨b1, b2, t, rfl, h1, h2, by omega, by omega, by omega, by omega, by omega,
              by omega, ?_⟩
            intro q
            simp [decodeRune, h80, hf, hb, hb2]
  · cases rest with
    | nil => left; simp [decodeRune, h80, hf]
    | cons b1 t =>
      by_cases hb : b1 < lo ∨ hi < b1
      · left; simp [decodeRune, h80, hf, hb]
      · cases t with
        | nil => left; simp [decodeRune, h80, hf]
        | cons b2 t =>
          by_cases hb2 : b2 < 0x80 ∨ 0xBF < b2
          · left; simp [decodeRune, h80, hf, hb, hb2]
          · cases t with
            | nil => left; simp [decodeRune, h80, hf]
            | cons b3 t =>
              by_cases hb3 : b3 < 0x80 ∨ 0xBF < b3
              · left; simp [decodeRune, h80, hf, hb, hb2, hb3]
              · right; right; right
                refine ⟨b1, b2, b3, t, rfl, h1, h2, by omega, by omega, by omega, by omega,
                  by omega, by omega, by omega, by omega, ?_⟩
                intro q
                simp [decodeRune, h80, hf, hb, hb2, hb3]


/-- A decoding step that does not report an error reads a sequence of two to
four bytes, all at least 0x80, which is the encoding of the rune it returns
and alone determines the result. -/
theorem decodeRune_valid (c : Nat) (rest : List Nat) (hc : 0x80 ≤ c)
    (hv : decodeRune (c :: rest) ≠ (RuneError, 1)) :
    2 ≤ (decodeRune (c :: rest)).2 ∧
    (decodeRune (c :: rest)).2 ≤ (c :: rest).length ∧
    encodeRune (decodeRune (c :: rest)).1 = (c :: rest).take (decodeRune (c :: rest)).2 ∧
    (∀ b ∈ (c :: rest).take (decodeRune (c :: rest)).2, 0x80 ≤ b) ∧
    (∀ q, decodeRune ((c :: rest).take (decodeRune (c :: rest)).2 ++ q)
      = decodeRune (c :: rest)) := by
  rcases decodeRune_multi c rest hc with h | ⟨b1, t, rfl, h1, h2, h3, h4, hd⟩ |
    ⟨b1, b2, t, rfl, h1, h2, h3, h4, h5, h6, h7, h8, hd⟩ |
    ⟨b1, b2, b3, t, rfl, h1, h2, h3, h4, h5, h6, h7, h8, h9, h10, hd⟩
  · exact absurd h hv
  · rw [hd t]
    refine ⟨by simp, by simp, ?_, ?_, ?_⟩
    · have e1 : ¬ (c % 32 * 64 + b1 % 64 ≤ 0x7F) := by omega
      have e2 : c % 32 * 64 + b1 % 64 ≤ 0x7FF := by omega
      simp only [encodeRune, e1, e2, if_false, if_true, List.take_succ_cons, List.take_zero]
      congr 1
      · omega
      · congr 1
        omega
    · intro b hb
      simp at hb
      omega
    · intro q
      simpa using hd q
  · rw [hd t]
    refine ⟨by simp, by simp, ?_, ?_, ?_⟩
    · have e1 : ¬ (c % 16 * 4096 + b1 % 64 * 64 + b2 % 64 ≤ 0x7F) := by omega
      have e2 : ¬ (c % 16 * 4096 + b1 % 64 * 64 + b2 % 64 ≤ 0x7FF) := by omega
      have e3 : ¬ (0x10FFFF < c % 16 * 4096 + b1 % 64 * 64 + b2 % 64 ∨
          (0xD800 ≤ c % 16 * 4096 + b1 % 64 * 64 + b2 % 64 ∧
            c % 16 * 4096 + b1 % 64 * 64 + b2 % 64 ≤ 0xDFFF)) := by omega
      have e4 : c % 16 * 4096 + b1 % 64 * 64 + b2 % 64 ≤ 0xFFFF := by omega
      simp only [encodeRune, e1, e2, e3, e4, if_false, if_true, List.take_succ_cons,
        List.take_zero]
      congr 1
      · omega
      · congr 1
        · omega
        · congr 1
          omega
    · intro b hb
      simp at hb
      omega
    · intro q
      simpa using hd q
  · rw [hd t]
    refine ⟨by simp, by simp, ?_, ?_, ?_⟩
    · have e1 : ¬ (c % 8 * 262144 + b1 % 64 * 4096 + b2 % 64 * 64 + b3 % 64 ≤ 0x7F) := by
        omega
      have e2 : ¬ (c % 8 * 262144 + b1 % 64 * 4096 + b2 % 64 * 64 + b3 % 64 ≤ 0x7FF) := by
        omega
      have e3 : ¬ (0x10FFFF < c % 8 * 262144 + b1 % 64 * 4096 + b2 % 64 * 64 + b3 % 64 ∨
          (0xD800 ≤ c % 8 * 262144 + b1 % 64 * 4096 + b2 % 64 * 64 + b3 % 64 ∧
            c % 8 * 262144 + b1 % 64 * 4096 + b2 % 64 * 64 + b3 % 64 ≤ 0xDFFF)) := by omega
      have e4 : ¬ (c % 8 * 262144 + b1 % 64 * 4096 + b2 % 64 * 64 + b3 % 64 ≤ 0xFFFF) := by
        omega
      simp only [encodeRune, e1, e2, e3, e4, if_false, List.take_succ_cons, List.take_zero]
      congr 1
      · omega
      · congr 1
        · omega
        · congr 1
          · omega
          · congr 1
            omega
    · intro b hb
      simp at hb
      omega
    · intro q
      simpa using hd q

/-! ## Lemmas on the scanner -/

theorem run_inString_plain (s : Scanner) (c : Nat) (hs : s.step = .stateInString)
    (h1 : 0x20 ≤ c) (h2 : c ≠ 0x22) (h3 : c ≠ 0x5C) : s.run c = (s, .scanContinue) := by
  have h4 : ¬ c < 0x20 := by omega
  simp [Scanner.run, hs, stateInString, h2, h3, h4]

theorem run_inString_backslash (s : Scanner) (hs : s.step = .stateInString) :
    s.run 0x5C = ({ s with step := .stateInStringEsc }, .scanContinue) := by
  simp [Scanner.run, hs, stateInString]

theorem run_inStringEsc (s : Scanner) (e : Nat) (hs : s.step = .stateInStringEsc)
    (he : (escapeChar e).isSome = true) :
    s.run e = ({ s with step := .stateInString }, .scanContinue) := by
  have h : e = 0x62 ∨ e = 0x66 ∨ e = 0x6E ∨ e = 0x72 ∨ e = 0x74 ∨ e = 0x5C ∨ e = 0x2F ∨
      e = 0x22 := by
    unfold escapeChar at he
    split_ifs at he with h1 h2 h3 h4 h5 h6
    · omega
    · omega
    · omega
    · omega
    · omega
    · omega
    · simp at he
  simp [Scanner.run, hs, stateInStringEsc, h]

theorem set_step_self (s : Scanner) (hs : s.step = .stateInString) :
    ({ s with step := .stateInString } : Scanner) = s := by
  cases s
  simp at hs
  simp [hs]

/-- From inside a string the scanner reads a string body and is inside the
string again, in the same state. -/
theorem checkValidLoop_stringBody (n : Nat) :
    ∀ body : List Nat, body.length ≤ n → isStringBody body = true →
      ∀ (s : Scanner) (tail : List Nat), s.step = .stateInString →
        checkValidLoop s (body ++ tail) = checkValidLoop s tail := by
  induction n with
  | zero =>
    intro body hlen _ s tail _
    have : body = [] := List.length_eq_zero.mp (by omega)
    subst this
    rfl
  | succ n ih =>
    intro body hlen hb s tail hs
    cases body with
    | nil => rfl
    | cons c rest =>
      rw [isStringBody.eq_def] at hb
      simp only at hb
      by_cases hc : c = 0x5C
      · subst hc
        simp only [if_true] at hb
        cases rest with
        | nil => simp at hb
        | cons e rest2 =>
          simp only at hb
          by_cases he : e = 0x75
          · subst he
            simp only [if_true] at hb
            match rest2, hb, hlen with
            | h1 :: h2 :: h3 :: h4 :: rest3, hb, hlen =>
              simp only [Bool.and_eq_true] at hb
              obtain ⟨⟨⟨⟨x1, x2⟩, x3⟩, x4⟩, hr⟩ := hb
              have := ih rest3 (by simp at hlen; omega) hr s tail hs
              rw [← this]
              simp [checkValidLoop, Scanner.run, hs, stateInString, stateInStringEsc,
                stateInStringEscHex, x1, x2, x3, x4, set_step_self s hs]
          · simp only [he, if_false, Bool.and_eq_true] at hb
            have := ih rest2 (by simp at hlen; omega) hb.2 s tail hs
            rw [← this]
            simp [checkValidLoop, run_inString_backslash s hs,
              run_inStringEsc { s with step := .stateInStringEsc } e rfl hb.1,
              set_step_self s hs]
      · simp only [hc, if_false, Bool.and_eq_true, decide_eq_true_eq] at hb
        have := ih rest (by simp at hlen; omega) hb.2 s tail hs
        rw [← this]
        simp [checkValidLoop, run_inString_plain s c hs hb.1.1 hb.1.2 hc]

/-- Leading space is skipped at the beginning of a value. -/
theorem checkValidLoop_leadingSpace (ws tail : List Nat)
    (hws : ∀ c ∈ ws, isSpace c = true) :
    checkValidLoop Scanner.reset (ws ++ tail) = checkValidLoop Scanner.reset tail := by
  induction ws with
  | nil => rfl
  | cons c ws ih =>
    have hc : isSpace c = true := hws c (by simp)
    have hrun : Scanner.reset.run c = (Scanner.reset, .scanSkipSpace) := by
      simp [Scanner.run, Scanner.reset, stateBeginValue, hc]
    simp only [List.cons_append, checkValidLoop, hrun]
    simpa using ih (fun d hd => hws d (by simp [hd]))

/-- After the top-level value only space may follow, and then the input is
complete. -/
theorem checkValidLoop_trailingSpace (ws : List Nat) (hws : ∀ c ∈ ws, isSpace c = true) :
    ∀ s : Scanner, s.parseState = [] → s.err = false →
      (s.step = .stateEndValue ∨ (s.step = .stateEndTop ∧ s.endTop = true)) →
      ∃ s2, checkValidLoop s ws = some s2 ∧ s2.eof ≠ .scanError := by
  induction ws with
  | nil =>
    intro s hp he hstep
    refine ⟨s, rfl, ?_⟩
    rcases hstep with h | ⟨_, h⟩
    · simp [Scanner.eof, he, Scanner.run, h, stateEndValue, hp, stateEndTop, isSpace]
    · simp [Scanner.eof, he, h]
  | cons c ws ih =>
    intro s hp he hstep
    have hc : isSpace c = true := hws c (by simp)
    have hrun : s.run c = ({ s with step := .stateEndTop, endTop := true }, .scanEnd) := by
      rcases hstep with h | ⟨h, h2⟩
      · simp [Scanner.run, h, stateEndValue, hp, stateEndTop, hc]
      · cases s
        simp at h h2
        simp [Scanner.run, h, h2, stateEndTop, hc]
    simp only [checkValidLoop, hrun]
    exact ih (fun d hd => hws d (by simp [hd])) _ hp he (Or.inr ⟨rfl, rfl⟩)

/-- The scanner accepts a string literal with space around it. -/
theorem checkValid_string (ws1 body ws2 : List Nat) (hws1 : ∀ c ∈ ws1, isSpace c = true)
    (hb : isStringBody body = true) (hws2 : ∀ c ∈ ws2, isSpace c = true) :
    checkValid (ws1 ++ 0x22 :: (body ++ 0x22 :: ws2)) = true := by
  unfold checkValid
  rw [checkValidLoop_leadingSpace ws1 _ hws1]
  have h1 : Scanner.reset.run 0x22
      = ({ Scanner.reset with step := .stateInString }, .scanBeginLiteral) := by
    simp [Scanner.run, Scanner.reset, stateBeginValue, isSpace]
  have h2 : ({ Scanner.reset with step := .stateInString } : Scanner).run 0x22
      = ({ Scanner.reset with step := .stateEndValue }, .scanContinue) := by
    simp [Scanner.run, Scanner.reset, stateInString]
  rw [checkValidLoop, h1]
  simp only [reduceCtorEq, if_false]
  rw [checkValidLoop_stringBody body.length body (le_refl _) hb _ _ rfl]
  rw [checkValidLoop, h2]
  simp only [reduceCtorEq, if_false]
  obtain ⟨s2, hs2, heof⟩ := checkValidLoop_trailingSpace ws2 hws2
    { Scanner.reset with step := .stateEndValue } rfl rfl (Or.inl rfl)
  rw [hs2]
  simpa using heof

/-- The scanner accepts the literal `null` with space around it. -/
theorem checkValid_null (ws1 ws2 : List Nat) (hws1 : ∀ c ∈ ws1, isSpace c = true)
    (hws2 : ∀ c ∈ ws2, isSpace c = true) :
    checkValid (ws1 ++ 0x6E :: 0x75 :: 0x6C :: 0x6C :: ws2) = true := by
  unfold checkValid
  rw [checkValidLoop_leadingSpace ws1 _ hws1]
  have h : checkValidLoop Scanner.reset (0x6E :: 0x75 :: 0x6C :: 0x6C :: ws2)
      = checkValidLoop { Scanner.reset with step := .stateEndValue } ws2 := by
    simp [checkValidLoop, Scanner.run, Scanner.reset, stateBeginValue, isSpace, stateLiteral]
  rw [h]
  obtain ⟨s2, hs2, heof⟩ := checkValidLoop_trailingSpace ws2 hws2
    { Scanner.reset with step := .stateEndValue } rfl rfl (Or.inl rfl)
  rw [hs2]
  simpa using heof

/-! ## Lemmas on the decoder -/

theorem rescanLiteral_plain (c : Nat) (l : List Nat) (h1 : c ≠ 0x5C) (h2 : c ≠ 0x22)
    (hl : l ≠ []) : rescanLiteral (c :: l) = c :: rescanLiteral l := by
  cases l with
  | nil => exact absurd rfl hl
  | cons d r => simp [rescanLiteral, h1, h2]

theorem rescanLiteral_escape (e : Nat) (l : List Nat) :
    rescanLiteral (0x5C :: e :: l) = 0x5C :: e :: rescanLiteral l := by
  simp [rescanLiteral]

theorem rescanLiteral_quote (l : List Nat) : rescanLiteral (0x22 :: l) = [0x22] := by
  cases l with
  | nil => rfl
  | cons d r => simp [rescanLiteral]

theorem isHexDigit_plain (h : Nat) (hh : isHexDigit h = true) :
    h ≠ 0x5C ∧ h ≠ 0x22 ∧ 0x20 ≤ h ∧ h < 0x80 := by
  simp only [isHexDigit, Bool.or_eq_true, Bool.and_eq_true, decide_eq_true_eq] at hh
  omega

/-- The decoder finds the end of a string literal where the body ends. -/
theorem rescanLiteral_stringBody (n : Nat) :
    ∀ body : List Nat, body.length ≤ n → isStringBody body = true →
      ∀ tail : List Nat, rescanLiteral (body ++ 0x22 :: tail) = body ++ [0x22] := by
  induction n with
  | zero =>
    intro body hlen _ tail
    have : body = [] := List.length_eq_zero.mp (by omega)
    subst this
    exact rescanLiteral_quote tail
  | succ n ih =>
    intro body hlen hb tail
    cases body with
    | nil => exact rescanLiteral_quote tail
    | cons c rest =>
      rw [isStringBody.eq_def] at hb
      simp only at hb
      by_cases hc : c = 0x5C
      · subst hc
        simp only [if_true] at hb
        cases rest with
        | nil => simp at hb
        | cons e rest2 =>
          simp only at hb
          by_cases he : e = 0x75
          · subst he
            simp only [if_true] at hb
            match rest2, hb, hlen with
            | h1 :: h2 :: h3 :: h4 :: rest3, hb, hlen =>
              simp only [Bool.and_eq_true] at hb
              obtain ⟨⟨⟨⟨x1, x2⟩, x3⟩, x4⟩, hr⟩ := hb
              have := ih rest3 (by simp at hlen; omega) hr tail
              have p1 := isHexDigit_plain h1 x1
              have p2 := isHexDigit_plain h2 x2
              have p3 := isHexDigit_plain h3 x3
              have p4 := isHexDigit_plain h4 x4
              simp only [List.cons_append]
              rw [rescanLiteral_escape, rescanLiteral_plain h1 _ p1.1 p1.2.1 (by simp),
                rescanLiteral_plain h2 _ p2.1 p2.2.1 (by simp),
                rescanLiteral_plain h3 _ p3.1 p3.2.1 (by simp),
                rescanLiteral_plain h4 _ p4.1 p4.2.1 (by simp), this]
          · simp only [he, if_false, Bool.and_eq_true] at hb
            have := ih rest2 (by simp at hlen; omega) hb.2 tail
            simp only [List.cons_append]
            rw [rescanLiteral_escape, this]
      · simp only [hc, if_false, Bool.and_eq_true, decide_eq_true_eq] at hb
        have := ih rest (by simp at hlen; omega) hb.2 tail
        simp only [List.cons_append]
        rw [rescanLiteral_plain c _ hc hb.1.2 (by simp), this]

theorem hexVal_of_isHexDigit (h : Nat) (hh : isHexDigit h = true) :
    ∃ d, hexVal h = some d ∧ d < 16 := by
  simp only [isHexDigit, Bool.or_eq_true, Bool.and_eq_true, decide_eq_true_eq] at hh
  unfold hexVal
  split_ifs with h1 h2 h3
  · exact ⟨_, rfl, by omega⟩
  · exact ⟨_, rfl, by omega⟩
  · exact ⟨_, rfl, by omega⟩
  · omega

theorem isHexDigit_of_hexVal (h d : Nat) (hh : hexVal h = some d) : isHexDigit h = true := by
  unfold hexVal at hh
  simp only [isHexDigit, Bool.or_eq_true, Bool.and_eq_true, decide_eq_true_eq]
  split_ifs at hh with h1 h2 h3 <;> omega

theorem getu4_of_hex (h1 h2 h3 h4 : Nat) (r : List Nat) (x1 : isHexDigit h1 = true)
    (x2 : isHexDigit h2 = true) (x3 : isHexDigit h3 = true) (x4 : isHexDigit h4 = true) :
    ∃ u, getu4 (0x5C :: 0x75 :: h1 :: h2 :: h3 :: h4 :: r) = some u ∧ u < 0x10000 := by
  obtain ⟨d1, e1, l1⟩ := hexVal_of_isHexDigit h1 x1
  obtain ⟨d2, e2, l2⟩ := hexVal_of_isHexDigit h2 x2
  obtain ⟨d3, e3, l3⟩ := hexVal_of_isHexDigit h3 x3
  obtain ⟨d4, e4, l4⟩ := hexVal_of_isHexDigit h4 x4
  refine ⟨((d1 * 16 + d2) * 16 + d3) * 16 + d4, ?_, by omega⟩
  simp [getu4, e1, e2, e3, e4]

theorem getu4_shape (l : List Nat) (v : Nat) (h : getu4 l = some v) :
    ∃ k1 k2 k3 k4 r, l = 0x5C :: 0x75 :: k1 :: k2 :: k3 :: k4 :: r ∧
      isHexDigit k1 = true ∧ isHexDigit k2 = true ∧ isHexDigit k3 = true ∧
      isHexDigit k4 = true := by
  match l, h with
  | b :: u :: c1 :: c2 :: c3 :: c4 :: r, h =>
    simp only [getu4] at h
    split_ifs at h with hbu
    have hb : b = 0x5C := by omega
    have hu : u = 0x75 := by omega
    subst hb hu
    split at h
    · rename_i d1 d2 d3 d4 e1 e2 e3 e4
      exact ⟨c1, c2, c3, c4, r, rfl, isHexDigit_of_hexVal _ _ e1, isHexDigit_of_hexVal _ _ e2,
        isHexDigit_of_hexVal _ _ e3, isHexDigit_of_hexVal _ _ e4⟩
    · simp at h
  | [], h | [_], h | [_, _], h | [_, _, _], h | [_, _, _, _], h | [_, _, _, _, _], h =>
    simp [getu4] at h

theorem isStringBody_high (pre suf : List Nat) (hpre : ∀ b ∈ pre, 0x80 ≤ b) :
    isStringBody (pre ++ suf) = isStringBody suf := by
  induction pre with
  | nil => rfl
  | cons c pre ih =>
    have hc : 0x80 ≤ c := hpre c (by simp)
    have h1 : c ≠ 0x5C := by omega
    have h2 : 0x20 ≤ c := by omega
    have h3 : c ≠ 0x22 := by omega
    rw [List.cons_append, isStringBody.eq_def]
    have ih2 := ih (fun b hb => hpre b (by simp [hb]))
    simp [h1, h2, h3, ih2]

theorem encodeRune_RuneError : encodeRune RuneError = [0xEF, 0xBF, 0xBD] := by
  decide

theorem unquoteLoop_nil (fuel : Nat) : unquoteLoop fuel [] = some [] := by
  cases fuel <;> rfl

theorem jsonStringValueLoop_nil (fuel : Nat) : jsonStringValueLoop fuel [] = some [] := by
  cases fuel <;> rfl

theorem unquoteLoop_succ_cons (fuel c : Nat) (rest : List Nat) :
    unquoteLoop (fuel + 1) (c :: rest) =
    if c = 0x5C then
      match rest with
      | [] => none
      | e :: rest2 =>
        if e = 0x22 ∨ e = 0x5C ∨ e = 0x2F ∨ e = 0x27 then
          (unquoteLoop fuel rest2).map (fun out => e :: out)
        else if e = 0x62 then (unquoteLoop fuel rest2).map (fun out => 0x08 :: out)
        else if e = 0x66 then (unquoteLoop fuel rest2).map (fun out => 0x0C :: out)
        else if e = 0x6E then (unquoteLoop fuel rest2).map (fun out => 0x0A :: out)
        else if e = 0x72 then (unquoteLoop fuel rest2).map (fun out => 0x0D :: out)
        else if e = 0x74 then (unquoteLoop fuel rest2).map (fun out => 0x09 :: out)
        else if e = 0x75 then
          match getu4 (c :: rest) with
          | none => none
          | some rr =>
            if isSurrogate rr then
              if utf16DecodeRune rr (getu4 (rest.drop 5)) ≠ RuneError then
                (unquoteLoop fuel (rest.drop 11)).map
                  (fun out => encodeRune (utf16DecodeRune rr (getu4 (rest.drop 5))) ++ out)
              else (unquoteLoop fuel (rest.drop 5)).map (fun out => encodeRune RuneError ++ out)
            else (unquoteLoop fuel (rest.drop 5)).map (fun out => encodeRune rr ++ out)
        else none
    else if c = 0x22 ∨ c < 0x20 then none
    else if c < 0x80 then (unquoteLoop fuel rest).map (fun out => c :: out)
    else
      (unquoteLoop fuel ((c :: rest).drop (decodeRune (c :: rest)).2)).map
        (fun out => encodeRune (decodeRune (c :: rest)).1 ++ out) := rfl

theorem unquoteLoop_plain (fuel c : Nat) (rest : List Nat) (h1 : c ≠ 0x5C) (h2 : c ≠ 0x22)
    (h3 : 0x20 ≤ c) (h4 : c < 0x80) :
    unquoteLoop (fuel + 1) (c :: rest) = (unquoteLoop fuel rest).map (fun out => c :: out) := by
  have h5 : ¬ (c = 0x22 ∨ c < 0x20) := by omega
  rw [unquoteLoop_succ_cons]
  simp only [h1, h5, h4, if_false, if_true]

theorem jsonStringValueLoop_plain (fuel c : Nat) (rest : List Nat) (h1 : c ≠ 0x5C)
    (h2 : c ≠ 0x22) (h3 : 0x20 ≤ c) (h4 : c < 0x80) :
    jsonStringValueLoop (fuel + 1) (c :: rest)
      = (jsonStringValueLoop fuel rest).map (fun out => c :: out) := by
  have h5 : ¬ (c = 0x22 ∨ c < 0x20) := by omega
  rw [jsonStringValueLoop.eq_def]
  simp only [h1, h5, h4, if_false, if_true]

theorem unquoteLoop_high (fuel c : Nat) (rest : List Nat) (h : 0x80 ≤ c) :
    unquoteLoop (fuel + 1) (c :: rest)
      = (unquoteLoop fuel ((c :: rest).drop (decodeRune (c :: rest)).2)).map
          (fun out => encodeRune (decodeRune (c :: rest)).1 ++ out) := by
  have h1 : c ≠ 0x5C := by omega
  have h4 : ¬ c < 0x80 := by omega
  have h5 : ¬ (c = 0x22 ∨ c < 0x20) := by omega
  rw [unquoteLoop_succ_cons]
  simp only [h1, h5, h4, if_false]

theorem jsonStringValueLoop_high (fuel c : Nat) (rest : List Nat) (h : 0x80 ≤ c) :
    jsonStringValueLoop (fuel + 1) (c :: rest)
      = if decodeRune (c :: rest) = (RuneError, 1) then
          (jsonStringValueLoop fuel rest).map (fun out => [0xEF, 0xBF, 0xBD] ++ out)
        else
          (jsonStringValueLoop fuel ((c :: rest).drop (decodeRune (c :: rest)).2)).map
            (fun out => (c :: rest).take (decodeRune (c :: rest)).2 ++ out) := by
  have h1 : c ≠ 0x5C := by omega
  have h4 : ¬ c < 0x80 := by omega
  have h5 : ¬ (c = 0x22 ∨ c < 0x20) := by omega
  rw [jsonStringValueLoop.eq_def]
  simp only [h1, h5, h4, if_false]

theorem unquoteLoop_escape (fuel e : Nat) (rest : List Nat) (he : e ≠ 0x75) :
    unquoteLoop (fuel + 1) (0x5C :: e :: rest)
      = if e = 0x22 ∨ e = 0x5C ∨ e = 0x2F ∨ e = 0x27 then
          (unquoteLoop fuel rest).map (fun out => e :: out)
        else if e = 0x62 then (unquoteLoop fuel rest).map (fun out => 0x08 :: out)
        else if e = 0x66 then (unquoteLoop fuel rest).map (fun out => 0x0C :: out)
        else if e = 0x6E then (unquoteLoop fuel rest).map (fun out => 0x0A :: out)
        else if e = 0x72 then (unquoteLoop fuel rest).map (fun out => 0x0D :: out)
        else if e = 0x74 then (unquoteLoop fuel rest).map (fun out => 0x09 :: out)
        else none := by
  rw [unquoteLoop_succ_cons]
  simp only [he, if_true, if_false]

theorem jsonStringValueLoop_escape (fuel e : Nat) (rest : List Nat) (he : e ≠ 0x75) :
    jsonStringValueLoop (fuel + 1) (0x5C :: e :: rest)
      = match escapeChar e with
        | none => none
        | some b => (jsonStringValueLoop fuel rest).map (fun out => b :: out) := by
  rw [jsonStringValueLoop.eq_def]
  simp only [he, if_true, if_false]

theorem unquoteLoop_u (fuel : Nat) (rest : List Nat) :
    unquoteLoop (fuel + 1) (0x5C :: 0x75 :: rest)
      = match getu4 (0x5C :: 0x75 :: rest) with
        | none => none
        | some rr =>
          if isSurrogate rr then
            if utf16DecodeRune rr (getu4 (rest.drop 4)) ≠ RuneError then
              (unquoteLoop fuel (rest.drop 10)).map
                (fun out => encodeRune (utf16DecodeRune rr (getu4 (rest.drop 4))) ++ out)
            else (unquoteLoop fuel (rest.drop 4)).map (fun out => encodeRune RuneError ++ out)
          else (unquoteLoop fuel (rest.drop 4)).map (fun out => encodeRune rr ++ out) := by
  rw [unquoteLoop_succ_cons]
  simp

theorem jsonStringValueLoop_u (fuel : Nat) (rest : List Nat) :
    jsonStringValueLoop (fuel + 1) (0x5C :: 0x75 :: rest)
      = match getu4 (0x5C :: 0x75 :: rest) with
        | none => none
        | some u =>
          if 0xD800 ≤ u ∧ u < 0xDC00 then
            match getu4 (rest.drop 4) with
            | none => (jsonStringValueLoop fuel (rest.drop 4)).map
                (fun out => [0xEF, 0xBF, 0xBD] ++ out)
            | some lo =>
              if 0xDC00 ≤ lo ∧ lo < 0xE000 then
                (jsonStringValueLoop fuel (rest.drop 10)).map
                  (fun out =>
                    encodeRune (0x10000 + (u - 0xD800) * 1024 + (lo - 0xDC00)) ++ out)
              else (jsonStringValueLoop fuel (rest.drop 4)).map
                (fun out => [0xEF, 0xBF, 0xBD] ++ out)
          else if 0xDC00 ≤ u ∧ u < 0xE000 then
            (jsonStringValueLoop fuel (rest.drop 4)).map
              (fun out => [0xEF, 0xBF, 0xBD] ++ out)
          else (jsonStringValueLoop fuel (rest.drop 4)).map (fun out => encodeRune u ++ out) := by
  rw [jsonStringValueLoop.eq_def]
  simp

/-- On a string body the second loop of `unquoteBytes` computes the string
the body denotes, and does not fail. -/
theorem unquoteLoop_eq_value (fuel : Nat) :
    ∀ body : List Nat, body.length ≤ fuel → isStringBody body = true →
      unquoteLoop fuel body = jsonStringValueLoop fuel body ∧
      (jsonStringValueLoop fuel body).isSome = true := by
  induction fuel with
  | zero =>
    intro body hlen _
    have : body = [] := List.length_eq_zero.mp (by omega)
    subst this
    simp [unquoteLoop_nil, jsonStringValueLoop_nil]
  | succ n ih =>
    intro body hlen hb
    cases body with
    | nil => simp [unquoteLoop_nil, jsonStringValueLoop_nil]
    | cons c rest =>
      rw [isStringBody.eq_def] at hb
      simp only at hb
      by_cases hc : c = 0x5C
      · subst hc
        simp only [if_true] at hb
        cases rest with
        | nil => simp at hb
        | cons e rest2 =>
          simp only at hb
          by_cases he : e = 0x75
          · subst he
            simp only [if_true] at hb
            match rest2, hb, hlen with
            | h1 :: h2 :: h3 :: h4 :: rest3, hb, hlen =>
              simp only [Bool.and_eq_true] at hb
              obtain ⟨⟨⟨⟨x1, x2⟩, x3⟩, x4⟩, hr⟩ := hb
              obtain ⟨u, hu, hu16⟩ := getu4_of_hex h1 h2 h3 h4 rest3 x1 x2 x3 x4
              obtain ⟨ih1, ih2⟩ := ih rest3 (by simp at hlen; omega) hr
              rw [unquoteLoop_u, jsonStringValueLoop_u, hu]
              simp only [List.drop_succ_cons, List.drop_zero]
              by_cases hhi : 0xD800 ≤ u ∧ u < 0xDC00
              · have hs : isSurrogate u = true := by
                  simp only [isSurrogate, Bool.and_eq_true, decide_eq_true_eq]
                  omega
                simp only [hs, hhi, if_true, and_self]
                cases hg : getu4 rest3 with
                | none =>
                  simp [utf16DecodeRune, encodeRune_RuneError, ih1, ih2]
                | some lo =>
                  by_cases hlo : 0xDC00 ≤ lo ∧ lo < 0xE000
                  · obtain ⟨k1, k2, k3, k4, r, hshape, y1, y2, y3, y4⟩ := getu4_shape rest3 lo hg
                    subst hshape
                    have hr2 : isStringBody r = true := by
                      rw [isStringBody.eq_def] at hr
                      simpa [y1, y2, y3, y4] using hr
                    obtain ⟨j1, j2⟩ := ih r (by simp at hlen; omega) hr2
                    have hval : utf16DecodeRune u (some lo)
                        = 0x10000 + (u - 0xD800) * 1024 + (lo - 0xDC00) := by
                      simp only [utf16DecodeRune, hhi, hlo, and_self, if_true]
                      omega
                    have hne : 0x10000 + (u - 0xD800) * 1024 + (lo - 0xDC00) ≠ RuneError := by
                      unfold RuneError
                      omega
                    simp [hval, hne, hlo, j1, j2]
                  · have hval : utf16DecodeRune u (some lo) = RuneError := by
                      simp only [utf16DecodeRune]
                      rw [if_neg]
                      omega
                    simp [hval, hlo, encodeRune_RuneError, ih1, ih2]
              · by_cases hlow : 0xDC00 ≤ u ∧ u < 0xE000
                · have hs : isSurrogate u = true := by
                    simp only [isSurrogate, Bool.and_eq_true, decide_eq_true_eq]
                    omega
                  have hval : ∀ x, utf16DecodeRune u x = RuneError := by
                    intro x
                    cases x with
                    | none => rfl
                    | some lo =>
                      simp only [utf16DecodeRune]
                      rw [if_neg]
                      omega
                  simp [hs, hhi, hlow, hval, encodeRune_RuneError, ih1, ih2]
                · have hs : isSurrogate u = false := by
                    simp only [isSurrogate, Bool.and_eq_false_imp, decide_eq_true_eq,
                      decide_eq_false_iff_not]
                    omega
                  simp [hs, hhi, hlow, ih1, ih2]
          · simp only [he, if_false, Bool.and_eq_true] at hb
            obtain ⟨ih1, ih2⟩ := ih rest2 (by simp at hlen; omega) hb.2
            rw [unquoteLoop_escape _ _ _ he, jsonStringValueLoop_escape _ _ _ he]
            obtain ⟨hb1, hb2⟩ := hb
            unfold escapeChar at hb1 ⊢
            split_ifs at hb1 ⊢ with g1 g2 g3 g4 g5 g6 g7 g8 g9 g10 g11 g12
            all_goals first
              | omega
              | (simp at hb1; done)
              | simp [ih1, ih2]
      · simp only [hc, if_false, Bool.and_eq_true, decide_eq_true_eq] at hb
        obtain ⟨ih1, ih2⟩ := ih rest (by simp at hlen; omega) hb.2
        by_cases h80 : c < 0x80
        · rw [unquoteLoop_plain _ _ _ hc hb.1.2 hb.1.1 h80,
            jsonStringValueLoop_plain _ _ _ hc hb.1.2 hb.1.1 h80, ih1]
          simp [ih2]
        · have h80 : 0x80 ≤ c := by omega
          rw [unquoteLoop_high _ _ _ h80, jsonStringValueLoop_high _ _ _ h80]
          by_cases hv : decodeRune (c :: rest) = (RuneError, 1)
          · simp [hv, encodeRune_RuneError, ih1, ih2]
          · obtain ⟨v1, v2, v3, v4, _⟩ := decodeRune_valid c rest h80 hv
            have hsplit : (c :: rest).take (decodeRune (c :: rest)).2 ++
                (c :: rest).drop (decodeRune (c :: rest)).2 = c :: rest :=
              List.take_append_drop _ _
            have hbody : isStringBody ((c :: rest).drop (decodeRune (c :: rest)).2) = true := by
              have h1 := isStringBody_high _ ((c :: rest).drop (decodeRune (c :: rest)).2) v4
              rw [hsplit] at h1
              rw [← h1, isStringBody.eq_def]
              simp [hc, hb.1.1, hb.1.2, hb.2]
            obtain ⟨j1, j2⟩ := ih ((c :: rest).drop (decodeRune (c :: rest)).2)
              (by simp only [List.length_drop] ; simp at hlen ⊢; omega) hbody
            simp only [hv, if_false, v3, j1]
            simp [j2]

theorem jsonStringValueLoop_bad (fuel c : Nat) (rest : List Nat) (h1 : c ≠ 0x5C)
    (h2 : c = 0x22 ∨ c < 0x20) : jsonStringValueLoop (fuel + 1) (c :: rest) = none := by
  rw [jsonStringValueLoop.eq_def]
  simp only [h1, h2, if_false, if_true]

theorem jsonStringValueLoop_backslash_end (fuel : Nat) :
    jsonStringValueLoop (fuel + 1) [0x5C] = none := by
  rw [jsonStringValueLoop.eq_def]
  simp

/-- The value of a string body does not depend on the fuel, once there is
enough of it. -/
theorem jsonStringValueLoop_fuel (f1 : Nat) :
    ∀ (f2 : Nat) (s : List Nat), s.length ≤ f1 → s.length ≤ f2 →
      jsonStringValueLoop f1 s = jsonStringValueLoop f2 s := by
  induction f1 with
  | zero =>
    intro f2 s h1 _
    have : s = [] := List.length_eq_zero.mp (by omega)
    subst this
    simp [jsonStringValueLoop_nil]
  | succ n ih =>
    intro f2 s h1 h2
    cases s with
    | nil => simp [jsonStringValueLoop_nil]
    | cons c rest =>
      cases f2 with
      | zero => simp at h2
      | succ m =>
        have hlen : rest.length ≤ n ∧ rest.length ≤ m := by
          simp at h1 h2
          omega
        by_cases hc : c = 0x5C
        · subst hc
          cases rest with
          | nil => rw [jsonStringValueLoop_backslash_end, jsonStringValueLoop_backslash_end]
          | cons e rest2 =>
            by_cases he : e = 0x75
            · subst he
              have l4 : (rest2.drop 4).length ≤ n ∧ (rest2.drop 4).length ≤ m := by
                simp only [List.length_drop]
                simp at hlen
                omega
              have l10 : (rest2.drop 10).length ≤ n ∧ (rest2.drop 10).length ≤ m := by
                simp only [List.length_drop]
                simp at hlen
                omega
              rw [jsonStringValueLoop_u, jsonStringValueLoop_u, ih m _ l4.1 l4.2,
                ih m _ l10.1 l10.2]
            · have l2 : rest2.length ≤ n ∧ rest2.length ≤ m := by
                simp at hlen
                omega
              rw [jsonStringValueLoop_escape _ _ _ he, jsonStringValueLoop_escape _ _ _ he,
                ih m _ l2.1 l2.2]
        · by_cases hbad : c = 0x22 ∨ c < 0x20
          · rw [jsonStringValueLoop_bad _ _ _ hc hbad, jsonStringValueLoop_bad _ _ _ hc hbad]
          · by_cases h80 : c < 0x80
            · rw [jsonStringValueLoop_plain _ _ _ hc (by omega) (by omega) h80,
                jsonStringValueLoop_plain _ _ _ hc (by omega) (by omega) h80,
                ih m _ hlen.1 hlen.2]
            · have h80 : 0x80 ≤ c := by omega
              rw [jsonStringValueLoop_high _ _ _ h80, jsonStringValueLoop_high _ _ _ h80,
                ih m _ hlen.1 hlen.2]
              by_cases hv : decodeRune (c :: rest) = (RuneError, 1)
              · simp only [hv, if_true]
              · obtain ⟨v1, v2, _⟩ := decodeRune_valid c rest h80 hv
                have ld : ((c :: rest).drop (decodeRune (c :: rest)).2).length ≤ n ∧
                    ((c :: rest).drop (decodeRune (c :: rest)).2).length ≤ m := by
                  simp only [List.length_drop, List.length_cons]
                  omega
                simp only [hv, if_false]
                rw [ih m _ ld.1 ld.2]

theorem skipUsual_nil (fuel : Nat) : skipUsual fuel [] = [] := by
  cases fuel <;> rfl

theorem skipUsual_succ_cons (fuel c : Nat) (rest : List Nat) :
    skipUsual (fuel + 1) (c :: rest) =
    if c = 0x5C ∨ c = 0x22 ∨ c < 0x20 then c :: rest
    else if c < 0x80 then skipUsual fuel rest
    else if (decodeRune (c :: rest)).1 = RuneError ∧ (decodeRune (c :: rest)).2 = 1 then
      c :: rest
    else skipUsual fuel ((c :: rest).drop (decodeRune (c :: rest)).2) := rfl

theorem pair_eq_iff_fst_snd (p : Nat × Nat) (a b : Nat) :
    (p.1 = a ∧ p.2 = b) ↔ p = (a, b) := by
  cases p
  simp

/-- The first loop of `unquoteBytes` splits its input into a part that
denotes itself and the rest. -/
theorem skipUsual_spec (fuel : Nat) :
    ∀ s : List Nat, s.length ≤ fuel →
      ∃ pre, s = pre ++ skipUsual fuel s ∧
        (isStringBody s = true → isStringBody (skipUsual fuel s) = true) ∧
        (∀ f, s.length ≤ f →
          jsonStringValueLoop f s
            = (jsonStringValueLoop f (skipUsual fuel s)).map (fun out => pre ++ out)) := by
  induction fuel with
  | zero =>
    intro s hlen
    have : s = [] := List.length_eq_zero.mp (by omega)
    subst this
    exact ⟨[], by simp [skipUsual_nil], by simp [skipUsual_nil],
      by simp [skipUsual_nil, jsonStringValueLoop_nil]⟩
  | succ n ih =>
    intro s hlen
    cases s with
    | nil =>
      exact ⟨[], by simp [skipUsual_nil], by simp [skipUsual_nil],
        by simp [skipUsual_nil, jsonStringValueLoop_nil]⟩
    | cons c rest =>
      have hrest : rest.length ≤ n := by
        simp at hlen
        omega
      rw [skipUsual_succ_cons]
      by_cases hu : c = 0x5C ∨ c = 0x22 ∨ c < 0x20
      · simp only [hu, if_true]
        exact ⟨[], by simp, fun h => h, by simp⟩
      · simp only [hu, if_false]
        have hc : c ≠ 0x5C := by omega
        have hq : c ≠ 0x22 := by omega
        have h20 : 0x20 ≤ c := by omega
        by_cases h80 : c < 0x80
        · simp only [h80, if_true]
          obtain ⟨pre, hpre, hbody, hval⟩ := ih rest hrest
          refine ⟨c :: pre, by rw [List.cons_append, ← hpre], ?_, ?_⟩
          · intro hb
            apply hbody
            rw [isStringBody.eq_def] at hb
            simpa [hc, hq, h20] using hb
          · intro f hf
            cases f with
            | zero => simp at hf
            | succ f =>
              have hf2 : rest.length ≤ f := by
                simp at hf
                omega
              have hul : (skipUsual n rest).length ≤ f := by
                have := congrArg List.length hpre
                simp at this
                omega
              rw [jsonStringValueLoop_plain _ _ _ hc hq h20 h80, hval f hf2,
                jsonStringValueLoop_fuel (f + 1) f _ (by omega) hul]
              simp [Option.map_map, Function.comp_def]
        · have h80b : 0x80 ≤ c := by omega
          simp only [h80, if_false, pair_eq_iff_fst_snd]
          by_cases hv : decodeRune (c :: rest) = (RuneError, 1)
          · simp only [hv, if_true]
            exact ⟨[], by simp, fun h => h, by simp⟩
          · simp only [hv, if_false]
            obtain ⟨v1, v2, v3, v4, _⟩ := decodeRune_valid c rest h80b hv
            have hsplit : (c :: rest).take (decodeRune (c :: rest)).2 ++
                (c :: rest).drop (decodeRune (c :: rest)).2 = c :: rest :=
              List.take_append_drop _ _
            have hdl : ((c :: rest).drop (decodeRune (c :: rest)).2).length ≤ n := by
              simp only [List.length_drop, List.length_cons]
              omega
            obtain ⟨pre, hpre, hbody, hval⟩ := ih _ hdl
            refine ⟨(c :: rest).take (decodeRune (c :: rest)).2 ++ pre, ?_, ?_, ?_⟩
            · rw [List.append_assoc, ← hpre, hsplit]
            · intro hb
              apply hbody
              rw [← hsplit, isStringBody_high _ _ v4] at hb
              exact hb
            · intro f hf
              cases f with
              | zero => simp at hf
              | succ f =>
                have hf2 : ((c :: rest).drop (decodeRune (c :: rest)).2).length ≤ f := by
                  simp only [List.length_drop, List.length_cons]
                  simp at hf
                  omega
                have hul : (skipUsual n ((c :: rest).drop (decodeRune (c :: rest)).2)).length
                    ≤ f := by
                  have := congrArg List.length hpre
                  simp only [List.length_append] at this
                  omega
                rw [jsonStringValueLoop_high _ _ _ h80b, if_neg hv, hval f hf2,
                  jsonStringValueLoop_fuel (f + 1) f _ (by omega) hul]
                simp [Option.map_map, Function.comp_def]

/-- `unquoteBytes` computes the string a string literal denotes. -/
theorem unquoteBytes_eq_value (body : List Nat) (hb : isStringBody body = true) :
    unquoteBytes (0x22 :: (body ++ [0x22])) = jsonStringValue body ∧
    (jsonStringValue body).isSome = true := by
  obtain ⟨pre, hpre, hbody, hval⟩ := skipUsual_spec body.length body (le_refl _)
  have hsome := (unquoteLoop_eq_value body.length body (le_refl _) hb).2
  refine ⟨?_, hsome⟩
  have h1 : ¬ ((0x22 :: (body ++ [0x22])).length < 2 ∨
      (0x22 :: (body ++ [0x22])).head? ≠ some 0x22 ∨
      (0x22 :: (body ++ [0x22])).getLast? ≠ some 0x22) := by
    have hlast : (0x22 :: (body ++ [0x22])).getLast? = some 0x22 :=
      List.getLast?_concat (0x22 :: body)
    simp [hlast]
  have h2 : ((0x22 :: (body ++ [0x22])).drop 1).dropLast = body := by
    simp
  unfold unquoteBytes
  simp only [h1, if_false, h2]
  unfold jsonStringValue
  by_cases hu : skipUsual body.length body = []
  · simp only [hu, if_true]
    rw [hval _ (le_refl _), hu, jsonStringValueLoop_nil]
    rw [hu] at hpre
    simp at hpre
    simp [← hpre]
  · simp only [hu, if_false]
    have hul : (skipUsual body.length body).length ≤ body.length := by
      have := congrArg List.length hpre
      simp only [List.length_append] at this
      omega
    have htake : body.take (body.length - (skipUsual body.length body).length) = pre := by
      have hl : body.length - (skipUsual body.length body).length = pre.length := by
        have := congrArg List.length hpre
        simp only [List.length_append] at this
        omega
      rw [hl]
      conv_lhs => rw [hpre]
      simp
    rw [htake, (unquoteLoop_eq_value _ _ (le_refl _) (hbody hb)).1, hval _ (le_refl _),
      jsonStringValueLoop_fuel _ body.length _ (le_refl _) hul]

/-! ## Lemmas on `json.Unmarshal` -/

theorem dropWhile_isSpace (ws : List Nat) (c : Nat) (tail : List Nat)
    (hws : ∀ d ∈ ws, isSpace d = true) (hc : isSpace c = false) :
    (ws ++ c :: tail).dropWhile isSpace = c :: tail := by
  induction ws with
  | nil => simp [List.dropWhile, hc]
  | cons d ws ih =>
    have hd : isSpace d = true := hws d (by simp)
    simp only [List.cons_append, List.dropWhile, hd]
    exact ih (fun x hx => hws x (by simp [hx]))

/-- `json.Unmarshal` into a `*string` of a string literal with space around
it gives the string the literal denotes. -/
theorem jsonUnmarshalStringPtr_string (ws1 body ws2 : List Nat)
    (hws1 : ∀ c ∈ ws1, isSpace c = true) (hb : isStringBody body = true)
    (hws2 : ∀ c ∈ ws2, isSpace c = true) :
    ∃ v, jsonStringValue body = some v ∧
      jsonUnmarshalStringPtr (ws1 ++ 0x22 :: (body ++ 0x22 :: ws2)) = .ok (some v) := by
  obtain ⟨hq, hsome⟩ := unquoteBytes_eq_value body hb
  obtain ⟨v, hv⟩ := Option.isSome_iff_exists.mp hsome
  refine ⟨v, hv, ?_⟩
  unfold jsonUnmarshalStringPtr
  rw [checkValid_string ws1 body ws2 hws1 hb hws2,
    dropWhile_isSpace ws1 0x22 _ hws1 (by decide)]
  simp only [rescanLiteral_stringBody body.length body (le_refl _) hb ws2, hq, hv]
  simp

/-- `json.Unmarshal` into a `*string` of `null` with space around it gives
the nil pointer. -/
theorem jsonUnmarshalStringPtr_null (ws1 ws2 : List Nat)
    (hws1 : ∀ c ∈ ws1, isSpace c = true) (hws2 : ∀ c ∈ ws2, isSpace c = true) :
    jsonUnmarshalStringPtr (ws1 ++ 0x6E :: 0x75 :: 0x6C :: 0x6C :: ws2) = .ok none := by
  unfold jsonUnmarshalStringPtr
  rw [checkValid_null ws1 ws2 hws1 hws2, dropWhile_isSpace ws1 0x6E _ hws1 (by decide)]
  simp

/-- `json.Unmarshal` into a `*string` fails on every input whose first
character after the leading space is neither a quotation mark nor `n`. -/
theorem jsonUnmarshalStringPtr_other (data : List Nat)
    (h1 : ∀ tail, data.dropWhile isSpace ≠ 0x22 :: tail)
    (h2 : ∀ tail, data.dropWhile isSpace ≠ 0x6E :: tail) :
    ∃ e, jsonUnmarshalStringPtr data = .error e := by
  unfold jsonUnmarshalStringPtr
  by_cases hv : checkValid data = false
  · exact ⟨Error.jsonSyntax, by simp [hv]⟩
  · simp only [hv, if_false]
    cases hd : data.dropWhile isSpace with
    | nil => exact ⟨_, rfl⟩
    | cons c rest =>
      have hc1 : c ≠ 0x22 := fun h => h1 rest (by rw [hd, h])
      have hc2 : c ≠ 0x6E := fun h => h2 rest (by rw [hd, h])
      simp only [hc1, hc2, if_false]
      split_ifs <;> exact ⟨_, rfl⟩

/-! ## Lemmas on `json.Marshal` -/

theorem encodeStringLoop_nil (fuel : Nat) : encodeStringLoop fuel [] = [] := by
  cases fuel <;> rfl

theorem encodeStringLoop_succ_cons (fuel b : Nat) (rest : List Nat) :
    encodeStringLoop (fuel + 1) (b :: rest) =
    if b < 0x80 then
      if htmlSafeSet b then b :: encodeStringLoop fuel rest
      else if b = 0x5C ∨ b = 0x22 then 0x5C :: b :: encodeStringLoop fuel rest
      else if b = 0x0A then 0x5C :: 0x6E :: encodeStringLoop fuel rest
      else if b = 0x0D then 0x5C :: 0x72 :: encodeStringLoop fuel rest
      else if b = 0x09 then 0x5C :: 0x74 :: encodeStringLoop fuel rest
      else
        0x5C :: 0x75 :: 0x30 :: 0x30 :: hex (b / 16) :: hex (b % 16) ::
          encodeStringLoop fuel rest
    else if (decodeRune (b :: rest)).1 = RuneError ∧ (decodeRune (b :: rest)).2 = 1 then
      0x5C :: 0x75 :: 0x66 :: 0x66 :: 0x66 :: 0x64 :: encodeStringLoop fuel rest
    else if (decodeRune (b :: rest)).1 = 0x2028 ∨ (decodeRune (b :: rest)).1 = 0x2029 then
      0x5C :: 0x75 :: 0x32 :: 0x30 :: 0x32 :: hex ((decodeRune (b :: rest)).1 % 16) ::
        encodeStringLoop fuel ((b :: rest).drop (decodeRune (b :: rest)).2)
    else
      (b :: rest).take (decodeRune (b :: rest)).2 ++
        encodeStringLoop fuel ((b :: rest).drop (decodeRune (b :: rest)).2) := rfl

theorem validLoop_succ_cons (fuel c : Nat) (rest : List Nat) :
    validLoop (fuel + 1) (c :: rest) =
    if c < 0x80 then validLoop fuel rest
    else if (decodeRune (c :: rest)).1 = RuneError ∧ (decodeRune (c :: rest)).2 = 1 then false
    else validLoop fuel ((c :: rest).drop (decodeRune (c :: rest)).2) := rfl

theorem isStringBody_plain (c : Nat) (rest : List Nat) (h1 : c ≠ 0x5C) (h2 : c ≠ 0x22)
    (h3 : 0x20 ≤ c) : isStringBody (c :: rest) = isStringBody rest := by
  rw [isStringBody.eq_def]
  simp [h1, h2, h3]

theorem isStringBody_escape (e : Nat) (rest : List Nat) (he : (escapeChar e).isSome = true) :
    isStringBody (0x5C :: e :: rest) = isStringBody rest := by
  have h75 : e ≠ 0x75 := by
    intro h
    subst h
    simp [escapeChar] at he
  rw [isStringBody.eq_def]
  simp [h75, he]

theorem isStringBody_u (h1 h2 h3 h4 : Nat) (rest : List Nat) (x1 : isHexDigit h1 = true)
    (x2 : isHexDigit h2 = true) (x3 : isHexDigit h3 = true) (x4 : isHexDigit h4 = true) :
    isStringBody (0x5C :: 0x75 :: h1 :: h2 :: h3 :: h4 :: rest) = isStringBody rest := by
  rw [isStringBody.eq_def]
  simp [x1, x2, x3, x4]

theorem isHexDigit_hex (n : Nat) (hn : n < 16) : isHexDigit (hex n) = true := by
  simp only [isHexDigit, hex, Bool.or_eq_true, Bool.and_eq_true, decide_eq_true_eq]
  split_ifs <;> omega

theorem hexVal_hex (n : Nat) (hn : n < 16) : hexVal (hex n) = some n := by
  unfold hexVal hex
  by_cases h : n < 10
  · have h1 : 0x30 ≤ 48 + n ∧ 48 + n ≤ 0x39 := by omega
    simp only [h, if_true, h1, and_self]
    congr 1
    omega
  · have h1 : ¬ (0x30 ≤ 87 + n ∧ 87 + n ≤ 0x39) := by omega
    have h2 : 0x61 ≤ 87 + n ∧ 87 + n ≤ 0x66 := by omega
    simp only [h, if_false, h1, h2, and_self, if_true]
    congr 1
    omega

/-- What `json.Marshal` writes between the quotation marks is a string body. -/
theorem isStringBody_encodeStringLoop (fuel : Nat) :
    ∀ s : List Nat, isStringBody (encodeStringLoop fuel s) = true := by
  induction fuel with
  | zero =>
    intro s
    cases s <;> rfl
  | succ n ih =>
    intro s
    cases s with
    | nil => rfl
    | cons b rest =>
      rw [encodeStringLoop_succ_cons]
      by_cases h80 : b < 0x80
      · simp only [h80, if_true]
        by_cases hsafe : htmlSafeSet b = true
        · simp only [hsafe, if_true]
          simp only [htmlSafeSet, Bool.and_eq_true, decide_eq_true_eq, ne_eq,
            decide_not, Bool.not_eq_true', decide_eq_false_iff_not] at hsafe
          rw [isStringBody_plain b _ (by omega) (by omega) (by omega)]
          exact ih rest
        · have hs : htmlSafeSet b = false := by simpa using hsafe
          simp only [hs, Bool.false_eq_true, if_false]
          split_ifs with g1 g2 g3 g4
          · rw [isStringBody_escape b _ (by rcases g1 with g | g <;> subst g <;> rfl)]
            exact ih rest
          · rw [isStringBody_escape _ _ (by rfl)]
            exact ih rest
          · rw [isStringBody_escape _ _ (by rfl)]
            exact ih rest
          · rw [isStringBody_escape _ _ (by rfl)]
            exact ih rest
          · rw [isStringBody_u _ _ _ _ _ (by decide) (by decide)
              (isHexDigit_hex _ (by omega)) (isHexDigit_hex _ (by omega))]
            exact ih rest
      · have h80b : 0x80 ≤ b := by omega
        simp only [h80, if_false, pair_eq_iff_fst_snd]
        by_cases hv : decodeRune (b :: rest) = (RuneError, 1)
        · simp only [hv, if_true]
          rw [isStringBody_u _ _ _ _ _ (by decide) (by decide) (by decide) (by decide)]
          exact ih rest
        · simp only [hv, if_false]
          obtain ⟨v1, v2, v3, v4, _⟩ := decodeRune_valid b rest h80b hv
          split_ifs with g
          · rw [isStringBody_u _ _ _ _ _ (by decide) (by decide) (by decide)
              (isHexDigit_hex _ (by omega))]
            exact ih _
          · rw [isStringBody_high _ _ v4]
            exact ih _

theorem getu4_digits (h1 h2 h3 h4 d1 d2 d3 d4 : Nat) (r : List Nat) (e1 : hexVal h1 = some d1)
    (e2 : hexVal h2 = some d2) (e3 : hexVal h3 = some d3) (e4 : hexVal h4 = some d4) :
    getu4 (0x5C :: 0x75 :: h1 :: h2 :: h3 :: h4 :: r)
      = some (((d1 * 16 + d2) * 16 + d3) * 16 + d4) := by
  simp [getu4, e1, e2, e3, e4]

theorem jsonStringValueLoop_u_plain (fuel u : Nat) (rest : List Nat)
    (hu : getu4 (0x5C :: 0x75 :: rest) = some u) (hs : u < 0xD800 ∨ 0xE000 ≤ u) :
    jsonStringValueLoop (fuel + 1) (0x5C :: 0x75 :: rest)
      = (jsonStringValueLoop fuel (rest.drop 4)).map (fun out => encodeRune u ++ out) := by
  have h1 : ¬ (0xD800 ≤ u ∧ u < 0xDC00) := by omega
  have h2 : ¬ (0xDC00 ≤ u ∧ u < 0xE000) := by omega
  rw [jsonStringValueLoop_u, hu]
  simp only [h1, h2, if_false]

/-- Decoding what `json.Marshal` writes for a valid UTF-8 string gives the
string back. -/
theorem jsonStringValueLoop_encodeStringLoop (fuel : Nat) :
    ∀ s : List Nat, s.length ≤ fuel → validLoop fuel s = true →
      ∀ f, (encodeStringLoop fuel s).length ≤ f →
        jsonStringValueLoop f (encodeStringLoop fuel s) = some s := by
  induction fuel with
  | zero =>
    intro s hlen _ f _
    have : s = [] := List.length_eq_zero.mp (by omega)
    subst this
    simp [encodeStringLoop_nil, jsonStringValueLoop_nil]
  | succ n ih =>
    intro s hlen hvalid f hf
    cases s with
    | nil => simp [encodeStringLoop_nil, jsonStringValueLoop_nil]
    | cons b rest =>
      have hrest : rest.length ≤ n := by
        simp at hlen
        omega
      rw [validLoop_succ_cons] at hvalid
      rw [encodeStringLoop_succ_cons] at hf ⊢
      by_cases h80 : b < 0x80
      · simp only [h80, if_true] at hvalid hf ⊢
        by_cases hsafe : htmlSafeSet b = true
        · simp only [hsafe, if_true] at hf ⊢
          simp only [htmlSafeSet, Bool.and_eq_true, decide_eq_true_eq, ne_eq,
            decide_not, Bool.not_eq_true', decide_eq_false_iff_not] at hsafe
          cases f with
          | zero => simp at hf
          | succ f =>
            rw [jsonStringValueLoop_plain _ _ _ (by omega) (by omega) (by omega) h80,
              ih rest hrest hvalid f (by simp at hf; omega)]
            rfl
        · have hs : htmlSafeSet b = false := by simpa using hsafe
          simp only [hs, Bool.false_eq_true, if_false] at hf ⊢
          cases f with
          | zero =>
            exfalso
            split_ifs at hf <;> simp at hf
          | succ f =>
            split_ifs at hf ⊢ with g1 g2 g3 g4
            · rw [jsonStringValueLoop_escape _ _ _ (by omega),
                ih rest hrest hvalid f (by simp at hf; omega)]
              rcases g1 with g | g <;> subst g <;> rfl
            · subst g2
              rw [jsonStringValueLoop_escape _ _ _ (by omega),
                ih rest hrest hvalid f (by simp at hf; omega)]
              rfl
            · subst g3
              rw [jsonStringValueLoop_escape _ _ _ (by omega),
                ih rest hrest hvalid f (by simp at hf; omega)]
              rfl
            · subst g4
              rw [jsonStringValueLoop_escape _ _ _ (by omega),
                ih rest hrest hvalid f (by simp at hf; omega)]
              rfl
            · have hg : getu4 (0x5C :: 0x75 :: 0x30 :: 0x30 :: hex (b / 16) :: hex (b % 16) ::
                  encodeStringLoop n rest) = some b := by
                rw [getu4_digits _ _ _ _ 0 0 (b / 16) (b % 16) _ (by decide) (by decide)
                  (hexVal_hex _ (by omega)) (hexVal_hex _ (by omega))]
                congr 1
                omega
              rw [jsonStringValueLoop_u_plain _ b _ hg (by omega)]
              simp only [List.drop_succ_cons, List.drop_zero]
              rw [ih rest hrest hvalid f (by simp at hf; omega)]
              have : encodeRune b = [b] := by
                simp only [encodeRune]
                rw [if_pos (by omega)]
              simp [this]
      · have h80b : 0x80 ≤ b := by omega
        simp only [h80, if_false, pair_eq_iff_fst_snd] at hvalid hf ⊢
        by_cases hv : decodeRune (b :: rest) = (RuneError, 1)
        · simp [hv] at hvalid
        · simp only [hv, if_false] at hvalid hf ⊢
          obtain ⟨v1, v2, v3, v4, v5⟩ := decodeRune_valid b rest h80b hv
          have hsplit : (b :: rest).take (decodeRune (b :: rest)).2 ++
              (b :: rest).drop (decodeRune (b :: rest)).2 = b :: rest :=
            List.take_append_drop _ _
          have hdl : ((b :: rest).drop (decodeRune (b :: rest)).2).length ≤ n := by
            simp only [List.length_drop, List.length_cons]
            simp at hlen
            omega
          rcases hdr : decodeRune (b :: rest) with ⟨r, sz⟩
          simp only [hdr] at hvalid hf v1 v2 v3 v4 v5 hsplit hdl ⊢
          rw [hdr] at hv
          have hTlen : ((b :: rest).take sz).length = sz := by
            rw [List.length_take]
            omega
          cases f with
          | zero =>
            exfalso
            split_ifs at hf
            · simp at hf
            · rw [List.length_append, hTlen] at hf
              omega
          | succ f =>
            split_ifs at hf ⊢ with g
            · have hg : getu4 (0x5C :: 0x75 :: 0x32 :: 0x30 :: 0x32 :: hex (r % 16) ::
                  encodeStringLoop n ((b :: rest).drop sz)) = some r := by
                rw [getu4_digits _ _ _ _ 2 0 2 (r % 16) _ (by decide) (by decide) (by decide)
                  (hexVal_hex _ (by omega))]
                congr 1
                omega
              rw [jsonStringValueLoop_u_plain _ r _ hg (by omega)]
              simp only [List.drop_succ_cons, List.drop_zero]
              rw [ih _ hdl hvalid f (by simp at hf; omega), v3]
              simp [hsplit]
            · obtain ⟨T, hT⟩ : ∃ T, (b :: rest).take sz = b :: T := by
                cases sz with
                | zero => omega
                | succ k => exact ⟨rest.take k, rfl⟩
              have hd2 : decodeRune (b :: (T ++ encodeStringLoop n ((b :: rest).drop sz)))
                  = (r, sz) := by
                have := v5 (encodeStringLoop n ((b :: rest).drop sz))
                rw [hT] at this
                exact this
              have hlenE : (encodeStringLoop n ((b :: rest).drop sz)).length ≤ f := by
                rw [List.length_append, hTlen] at hf
                omega
              have hTl : (b :: T).length = sz := by rw [← hT, hTlen]
              have htake : (b :: (T ++ encodeStringLoop n ((b :: rest).drop sz))).take sz
                  = b :: T := by
                rw [← List.cons_append]
                exact List.take_left' hTl
              have hdrop : (b :: (T ++ encodeStringLoop n ((b :: rest).drop sz))).drop sz
                  = encodeStringLoop n ((b :: rest).drop sz) := by
                rw [← List.cons_append]
                exact List.drop_left' hTl
              rw [hT, List.cons_append, jsonStringValueLoop_high _ _ _ h80b, hd2, if_neg hv]
              simp only [htake, hdrop]
              rw [ih _ hdl hvalid f hlenE, ← hT]
              simp [hsplit]

/-! ## What the scanner accepts -/

/-- After the top-level value, the scanner accepts nothing but space. -/
theorem space_of_checkValidLoop_trailing (ws : List Nat) :
    ∀ s s2 : Scanner, s.parseState = [] → s.err = false →
      (s.step = .stateEndValue ∨ (s.step = .stateEndTop ∧ s.endTop = true)) →
      checkValidLoop s ws = some s2 → s2.eof ≠ .scanError →
      ∀ c ∈ ws, isSpace c = true := by
  induction ws with
  | nil => intro s s2 _ _ _ _ _ c hc; simp at hc
  | cons c ws ih =>
    intro s s2 hp he hstep hrun heof
    by_cases hc : isSpace c = true
    · have hr : s.run c = ({ s with step := .stateEndTop, endTop := true }, .scanEnd) := by
        rcases hstep with h | ⟨h, h2⟩
        · simp [Scanner.run, h, stateEndValue, hp, stateEndTop, hc]
        · cases s
          simp at h h2
          simp [Scanner.run, h, h2, stateEndTop, hc]
      simp only [checkValidLoop, hr, reduceCtorEq, if_false] at hrun
      have := ih { s with step := .stateEndTop, endTop := true } s2 hp he (Or.inr ⟨rfl, rfl⟩)
        hrun heof
      intro d hd
      rcases List.mem_cons.mp hd with h | h
      · rw [h]; exact hc
      · exact this d h
    · exfalso
      have hc2 : isSpace c = false := by simpa using hc
      have hr : s.run c
          = ({ s with step := .stateError, err := true, endTop := true }, .scanEnd) := by
        rcases hstep with h | ⟨h, h2⟩
        · simp [Scanner.run, h, stateEndValue, hp, stateEndTop, hc2, Scanner.error]
        · cases s
          simp at h h2
          simp [Scanner.run, h, h2, stateEndTop, hc2, Scanner.error]
      simp only [checkValidLoop, hr, reduceCtorEq, if_false] at hrun
      cases ws with
      | nil =>
        simp only [checkValidLoop, Option.some.injEq] at hrun
        subst hrun
        simp [Scanner.eof] at heof
      | cons d ws =>
        simp [checkValidLoop, Scanner.run] at hrun

/-- In a state that expects one given kind of byte, the scanner accepts only
an input that goes on with such a byte. -/
theorem checkValidLoop_expect (ok : Nat → Bool) (next : Step) (s s2 : Scanner)
    (r : List Nat) (he : s.err = false) (ht : s.endTop = false)
    (hrun : ∀ c, s.run c = if ok c then ({ s with step := next }, .scanContinue) else s.error)
    (h : checkValidLoop s r = some s2) (heof : s2.eof ≠ .scanError) :
    ∃ c r2, r = c :: r2 ∧ ok c = true ∧ checkValidLoop { s with step := next } r2 = some s2 := by
  cases r with
  | nil =>
    exfalso
    simp only [checkValidLoop, Option.some.injEq] at h
    subst h
    have h20 := hrun 0x20
    by_cases hk : ok 0x20 = true
    · simp only [hk, if_true] at h20
      simp [Scanner.eof, he, ht, h20] at heof
    · simp only [hk, if_false] at h20
      simp [Scanner.eof, he, ht, h20, Scanner.error] at heof
  | cons c r2 =>
    by_cases hk : ok c = true
    · refine ⟨c, r2, rfl, hk, ?_⟩
      have hc := hrun c
      simp only [hk, if_true] at hc
      simpa [checkValidLoop, hc] using h
    · exfalso
      have hc := hrun c
      simp only [hk, if_false] at hc
      simp [checkValidLoop, hc, Scanner.error] at h

/-- What the scanner accepts from inside a top-level string is a string
body, the closing quotation mark and space. -/
theorem stringBody_of_checkValidLoop (n : Nat) :
    ∀ (rest : List Nat) (s2 : Scanner), rest.length ≤ n →
      checkValidLoop { step := .stateInString, parseState := [], err := false, endTop := false }
        rest = some s2 →
      s2.eof ≠ .scanError →
      ∃ body ws2, rest = body ++ 0x22 :: ws2 ∧ isStringBody body = true ∧
        ∀ c ∈ ws2, isSpace c = true := by
  induction n with
  | zero =>
    intro rest s2 hlen h heof
    have : rest = [] := List.length_eq_zero.mp (by omega)
    subst this
    simp only [checkValidLoop, Option.some.injEq] at h
    subst h
    exact absurd (by decide) heof
  | succ n ih =>
    intro rest s2 hlen h heof
    cases rest with
    | nil =>
      simp only [checkValidLoop, Option.some.injEq] at h
      subst h
      exact absurd (by decide) heof
    | cons c r =>
      have hr : r.length ≤ n := by
        simp at hlen
        omega
      by_cases hq : c = 0x22
      · subst hq
        have h2 : checkValidLoop
            { step := .stateEndValue, parseState := [], err := false, endTop := false } r
            = some s2 := by
          simpa [checkValidLoop, Scanner.run, stateInString] using h
        exact ⟨[], r, rfl, rfl,
          space_of_checkValidLoop_trailing r _ s2 rfl rfl (Or.inl rfl) h2 heof⟩
      · by_cases hb : c = 0x5C
        · subst hb
          have h2 : checkValidLoop
              { step := .stateInStringEsc, parseState := [], err := false, endTop := false } r
              = some s2 := by
            simpa [checkValidLoop, Scanner.run, stateInString] using h
          cases r with
          | nil =>
            simp only [checkValidLoop, Option.some.injEq] at h2
            subst h2
            exact absurd (by decide) heof
          | cons e r2 =>
            have hr2 : r2.length ≤ n := by
              simp at hr
              omega
            by_cases hesc : (escapeChar e).isSome = true
            · have hrun := run_inStringEsc
                { step := .stateInStringEsc, parseState := [], err := false, endTop := false }
                e rfl hesc
              simp only [checkValidLoop, hrun, reduceCtorEq, if_false] at h2
              obtain ⟨body, ws2, hsplit, hbody, hws⟩ := ih r2 s2 hr2 h2 heof
              refine ⟨0x5C :: e :: body, ws2, by rw [hsplit]; rfl, ?_, hws⟩
              rw [isStringBody_escape e body hesc]
              exact hbody
            · by_cases hu : e = 0x75
              · subst hu
                have h3 : checkValidLoop
                    { step := .stateInStringEscU, parseState := [], err := false,
                      endTop := false } r2 = some s2 := by
                  simpa [checkValidLoop, Scanner.run, stateInStringEsc] using h2
                obtain ⟨h1, t1, e1, x1, g1⟩ := checkValidLoop_expect isHexDigit
                  .stateInStringEscU1 _ s2 r2 rfl rfl
                  (by intro c; simp [Scanner.run, stateInStringEscHex]) h3 heof
                obtain ⟨h2', t2, e2, x2, g2⟩ := checkValidLoop_expect isHexDigit
                  .stateInStringEscU12 _ s2 t1 rfl rfl
                  (by intro c; simp [Scanner.run, stateInStringEscHex]) g1 heof
                obtain ⟨h3', t3, e3, x3, g3⟩ := checkValidLoop_expect isHexDigit
                  .stateInStringEscU123 _ s2 t2 rfl rfl
                  (by intro c; simp [Scanner.run, stateInStringEscHex]) g2 heof
                obtain ⟨h4', t4, e4, x4, g4⟩ := checkValidLoop_expect isHexDigit
                  .stateInString _ s2 t3 rfl rfl
                  (by intro c; simp [Scanner.run, stateInStringEscHex]) g3 heof
                subst e1 e2 e3 e4
                obtain ⟨body, ws2, hsplit, hbody, hws⟩ := ih t4 s2
                  (by simp at hr2; omega) g4 heof
                refine ⟨0x5C :: 0x75 :: h1 :: h2' :: h3' :: h4' :: body, ws2,
                  by rw [hsplit]; rfl, ?_, hws⟩
                rw [isStringBody_u _ _ _ _ _ x1 x2 x3 x4]
                exact hbody
              · exfalso
                have hne : ¬ (e = 0x62 ∨ e = 0x66 ∨ e = 0x6E ∨ e = 0x72 ∨ e = 0x74 ∨ e = 0x5C ∨
                    e = 0x2F ∨ e = 0x22) := by
                  intro hcases
                  apply hesc
                  rcases hcases with g | g | g | g | g | g | g | g <;> subst g <;> rfl
                simp [checkValidLoop, Scanner.run, stateInStringEsc, hne, hu, Scanner.error]
                  at h2
        · by_cases hctl : c < 0x20
          · exfalso
            simp [checkValidLoop, Scanner.run, stateInString, hq, hb, hctl, Scanner.error] at h
          · have hrun := run_inString_plain
              { step := .stateInString, parseState := [], err := false, endTop := false }
              c rfl (by omega) hq hb
            simp only [checkValidLoop, hrun, reduceCtorEq, if_false] at h
            obtain ⟨body, ws2, hsplit, hbody, hws⟩ := ih r s2 hr h heof
            refine ⟨c :: body, ws2, by rw [hsplit]; rfl, ?_, hws⟩
            rw [isStringBody_plain c body hb hq (by omega)]
            exact hbody

/-- When `json.Unmarshal` into a `*string` succeeds, the input is `null` or a
string literal, with space around it. -/
theorem jsonUnmarshalStringPtr_ok (data : List Nat) (r : Option GoString)
    (h : jsonUnmarshalStringPtr data = .ok r) :
    (∃ ws1 ws2, (∀ c ∈ ws1, isSpace c = true) ∧ (∀ c ∈ ws2, isSpace c = true) ∧
      data = ws1 ++ 0x6E :: 0x75 :: 0x6C :: 0x6C :: ws2 ∧ r = none) ∨
    (∃ ws1 body ws2, (∀ c ∈ ws1, isSpace c = true) ∧ isStringBody body = true ∧
      (∀ c ∈ ws2, isSpace c = true) ∧
      data = ws1 ++ 0x22 :: (body ++ 0x22 :: ws2) ∧ r = jsonStringValue body) := by
  have hsplit : data.takeWhile isSpace ++ data.dropWhile isSpace = data :=
    List.takeWhile_append_dropWhile _ _
  have hws1 : ∀ c ∈ data.takeWhile isSpace, isSpace c = true :=
    fun c hc => List.mem_takeWhile_imp hc
  by_cases hv : checkValid data = false
  · simp [jsonUnmarshalStringPtr, hv] at h
  · have hv2 : checkValid data = true := by simpa using hv
    cases hd : data.dropWhile isSpace with
    | nil => simp [jsonUnmarshalStringPtr, hv2, hd] at h
    | cons c rest =>
      rw [hd] at hsplit
      obtain ⟨s2, hloop, heof⟩ : ∃ s2, checkValidLoop Scanner.reset (c :: rest) = some s2 ∧
          s2.eof ≠ .scanError := by
        unfold checkValid at hv2
        rw [← hsplit, checkValidLoop_leadingSpace _ _ hws1] at hv2
        cases hl : checkValidLoop Scanner.reset (c :: rest) with
        | none => simp [hl] at hv2
        | some s2 => exact ⟨s2, rfl, by simpa [hl] using hv2⟩
      by_cases hn : c = 0x6E
      · left
        subst hn
        have h1 : checkValidLoop
            { step := .stateN, parseState := [], err := false, endTop := false } rest
            = some s2 := by
          simpa [checkValidLoop, Scanner.run, Scanner.reset, stateBeginValue, isSpace]
            using hloop
        obtain ⟨c1, t1, e1, x1, g1⟩ := checkValidLoop_expect (fun c => decide (c = 0x75))
          .stateNu _ s2 rest rfl rfl (by intro c; simp [Scanner.run, stateLiteral]) h1 heof
        obtain ⟨c2, t2, e2, x2, g2⟩ := checkValidLoop_expect (fun c => decide (c = 0x6C))
          .stateNul _ s2 t1 rfl rfl (by intro c; simp [Scanner.run, stateLiteral]) g1 heof
        obtain ⟨c3, t3, e3, x3, g3⟩ := checkValidLoop_expect (fun c => decide (c = 0x6C))
          .stateEndValue _ s2 t2 rfl rfl (by intro c; simp [Scanner.run, stateLiteral]) g2 heof
        simp only [decide_eq_true_eq] at x1 x2 x3
        subst e1 e2 e3 x1 x2 x3
        have hws2 := space_of_checkValidLoop_trailing t3 _ s2 rfl rfl (Or.inl rfl) g3 heof
        refine ⟨data.takeWhile isSpace, t3, hws1, hws2, hsplit.symm, ?_⟩
        simp [jsonUnmarshalStringPtr, hv2, hd] at h
        exact h.symm
      · by_cases hq : c = 0x22
        · right
          subst hq
          have h1 : checkValidLoop
              { step := .stateInString, parseState := [], err := false, endTop := false } rest
              = some s2 := by
            simpa [checkValidLoop, Scanner.run, Scanner.reset, stateBeginValue, isSpace]
              using hloop
          obtain ⟨body, ws2, hrest, hbody, hws2⟩ :=
            stringBody_of_checkValidLoop rest.length rest s2 (le_refl _) h1 heof
          refine ⟨data.takeWhile isSpace, body, ws2, hws1, hbody, hws2, ?_, ?_⟩
          · rw [← hrest]
            exact hsplit.symm
          · obtain ⟨hub, hsome⟩ := unquoteBytes_eq_value body hbody
            obtain ⟨v, hv3⟩ := Option.isSome_iff_exists.mp hsome
            simp only [jsonUnmarshalStringPtr, hv2, hd, hrest,
              rescanLiteral_stringBody body.length body (le_refl _) hbody ws2, hub, hv3] at h
            simp at h
            rw [hv3, ← h]
        · exfalso
          simp only [jsonUnmarshalStringPtr, hv2, hd, hn, hq] at h
          simp at h
          split_ifs at h

/-- On an input that `checkValid` accepts, the decoder meets a value and can
unquote it when it is a string: `json.Unmarshal` reports a syntax error only
when `checkValid` does. -/
theorem jsonUnmarshalStringPtr_valid (data : List Nat) (hv : checkValid data = true) :
    jsonUnmarshalStringPtr data ≠ .error .jsonSyntax := by
  have hsplit : data.takeWhile isSpace ++ data.dropWhile isSpace = data :=
    List.takeWhile_append_dropWhile _ _
  have hws1 : ∀ c ∈ data.takeWhile isSpace, isSpace c = true :=
    fun c hc => List.mem_takeWhile_imp hc
  obtain ⟨s2, hloop, heof⟩ : ∃ s2,
      checkValidLoop Scanner.reset (data.dropWhile isSpace) = some s2 ∧
        s2.eof ≠ .scanError := by
    have hv2 := hv
    unfold checkValid at hv2
    rw [← hsplit, checkValidLoop_leadingSpace _ _ hws1] at hv2
    cases hl : checkValidLoop Scanner.reset (data.dropWhile isSpace) with
    | none => simp [hl] at hv2
    | some s2 => exact ⟨s2, rfl, by simpa [hl] using hv2⟩
  cases hd : data.dropWhile isSpace with
  | nil =>
    rw [hd] at hloop
    simp only [checkValidLoop, Option.some.injEq] at hloop
    subst hloop
    exact absurd (by decide) heof
  | cons c rest =>
    rw [hd] at hloop
    unfold jsonUnmarshalStringPtr
    simp only [hv, Bool.true_eq_false, if_false, hd]
    by_cases hq : c = 0x22
    · subst hq
      have h1 : checkValidLoop
          { step := .stateInString, parseState := [], err := false, endTop := false } rest
          = some s2 := by
        simpa [checkValidLoop, Scanner.run, Scanner.reset, stateBeginValue, isSpace]
          using hloop
      obtain ⟨body, ws2, hrest, hbody, hws2⟩ :=
        stringBody_of_checkValidLoop rest.length rest s2 (le_refl _) h1 heof
      obtain ⟨hub, hsome⟩ := unquoteBytes_eq_value body hbody
      obtain ⟨v, hv3⟩ := Option.isSome_iff_exists.mp hsome
      simp [hrest, rescanLiteral_stringBody body.length body (le_refl _) hbody ws2, hub, hv3]
    · simp only [hq, if_false]
      split_ifs <;> simp

/-! ## Lemmas on `Set` -/

/-- A call of `Set` either succeeds and writes a container that does not
depend on the old one (`Null` with the empty payload, or `Present`), or it
does not succeed and leaves the container as it was. -/
theorem set_outcome (src : AnyValue) :
    (∃ t : Text, (t = { String := [], Status := Null } ∨ ∃ s, t = { String := s, Status := Present }) ∧
      ∀ dst : Text, dst.Set src = (t, none)) ∨
    (∃ e, ∀ dst : Text, dst.Set src = (dst, some e)) := by
  induction src with
  | getter got ih =>
    rcases ih with ⟨t, ht, h⟩ | ⟨e, h⟩
    · exact Or.inl ⟨t, ht, fun dst => by rw [Text.Set]; exact h dst⟩
    · exact Or.inr ⟨e, fun dst => by rw [Text.Set]; exact h dst⟩
  | nil => exact Or.inl ⟨_, Or.inl rfl, fun dst => by simp [Text.Set]⟩
  | string s => exact Or.inl ⟨_, Or.inr ⟨s, rfl⟩, fun dst => by simp [Text.Set]⟩
  | stringPtr p =>
    cases p with
    | none => exact Or.inl ⟨_, Or.inl rfl, fun dst => by simp [Text.Set]⟩
    | some s => exact Or.inl ⟨_, Or.inr ⟨s, rfl⟩, fun dst => by simp [Text.Set]⟩
  | bytes b =>
    cases b with
    | none => exact Or.inl ⟨_, Or.inl rfl, fun dst => by simp [Text.Set]⟩
    | some s => exact Or.inl ⟨_, Or.inr ⟨s, rfl⟩, fun dst => by simp [Text.Set, stringOfBytes]⟩
  | int v | int64 v | int32 v | int16 v | int8 v =>
    exact Or.inr ⟨.invalidConversion, fun dst => by simp [Text.Set]⟩
  | uint v | uint64 v | uint32 v | uint16 v | uint8 v =>
    exact Or.inr ⟨.invalidConversion, fun dst => by simp [Text.Set]⟩
  | definedString s =>
    exact Or.inl ⟨_, Or.inr ⟨s, rfl⟩, fun dst => by simp [Text.Set, underlyingStringType]⟩
  | getterSelf u =>
    cases u with
    | none =>
      exact Or.inr ⟨.cannotConvert (.getterSelf none),
        fun dst => by simp [Text.Set, underlyingStringType]⟩
    | some s =>
      exact Or.inl ⟨_, Or.inr ⟨s, rfl⟩, fun dst => by simp [Text.Set, underlyingStringType]⟩
  | bool b =>
    exact Or.inr ⟨.cannotConvert (.bool b), fun dst => by simp [Text.Set, underlyingStringType]⟩
  | float64 b =>
    exact Or.inr ⟨.cannotConvert (.float64 b), fun dst => by simp [Text.Set, underlyingStringType]⟩
  | status b =>
    exact Or.inr ⟨.cannotConvert (.status b), fun dst => by simp [Text.Set, underlyingStringType]⟩
  | other b =>
    exact Or.inr ⟨.cannotConvert (.other b), fun dst => by simp [Text.Set, underlyingStringType]⟩
  | getterUncomparable b =>
    exact Or.inr ⟨.comparingUncomparable, fun dst => by simp [Text.Set]⟩

theorem isWritten_null : Text.IsWritten { String := [], Status := Null } := by
  decide

theorem isWritten_present (s : GoString) : Text.IsWritten { String := s, Status := Present } := by
  have h1 : Present ≠ Undefined := by decide
  have h2 : Present ≠ Null := by decide
  simp [Text.IsWritten, h1, h2]

/-! ## The claims -/

/-- C1, as stated, fails: a present container with the empty payload encoded
into the nil buffer gives the nil slice (nothing was appended), and decoding
the nil slice gives status `Null`, not the container. -/
theorem C1_counterexample :
    Text.EncodeText { String := [], Status := Present } none none = (none, none) ∧
    (Text.DecodeText { String := [], Status := Undefined } none
        (Text.EncodeText { String := [], Status := Present } none none).1).1
      = { String := [], Status := Null } ∧
    (Text.DecodeText { String := [], Status := Undefined } none
        (Text.EncodeText { String := [], Status := Present } none none).1).1
      ≠ { String := [], Status := Present } := by
  decide

/-- C1 (amended): for every container `c` with status `Present`, `EncodeText`
into an empty buffer (nil or zero-length) succeeds, and whenever the payload
is not empty or the buffer is not nil, `DecodeText` of the returned bytes
succeeds and yields exactly `c`, whatever the destination held. -/
theorem C1_encodeText_decodeText_roundtrip (c dst : Text) (ci ci2 : Option ConnInfo)
    (buf : ByteSlice) (hc : c.Status = Present) (hbuf : buf = none ∨ buf = some []) :
    (c.EncodeText ci buf).2 = none ∧
    (c.String ≠ [] ∨ buf ≠ none →
      dst.DecodeText ci2 (c.EncodeText ci buf).1 = (c, none)) := by
  obtain ⟨str, st⟩ := c
  simp only at hc
  subst hc
  have hN : Present ≠ Null := by decide
  have hU : Present ≠ Undefined := by decide
  refine ⟨by simp [Text.EncodeText, hN, hU], ?_⟩
  intro h
  simp only [Text.EncodeText, hN, hU, if_false]
  cases str with
  | nil =>
    rcases hbuf with hb | hb
    · simp [hb] at h
    · subst hb
      simp [append, Text.DecodeText, stringOfBytes]
  | cons a as =>
    rcases hbuf with hb | hb <;> subst hb <;>
      simp [append, Text.DecodeText, stringOfBytes]

theorem C1_encodeText_decodeText_roundtrip_witness :
    (Text.EncodeText { String := [104, 105], Status := Present } none none).2 = none ∧
    Text.DecodeText { String := [], Status := Undefined } none
        (Text.EncodeText { String := [104, 105], Status := Present } none none).1
      = ({ String := [104, 105], Status := Present }, none) :=
  ⟨(C1_encodeText_decodeText_roundtrip { String := [104, 105], Status := Present }
      { String := [], Status := Undefined } none none none rfl (Or.inl rfl)).1,
    (C1_encodeText_decodeText_roundtrip { String := [104, 105], Status := Present }
      { String := [], Status := Undefined } none none none rfl (Or.inl rfl)).2
      (Or.inl (by decide))⟩

/-- C2: `DecodeText` never fails; the nil slice (the absent marker) gives
status `Null`; every non-nil slice `b`, the zero-length one included, gives
status `Present` with payload `b`; so decoding the zero-length slice and
decoding the nil slice give different containers. -/
theorem C2_decodeText_total (dst : Text) (ci : Option ConnInfo) :
    (∀ src, (dst.DecodeText ci src).2 = none) ∧
    dst.DecodeText ci none = ({ String := [], Status := Null }, none) ∧
    (∀ b : List Nat,
      dst.DecodeText ci (some b) = ({ String := b, Status := Present }, none)) ∧
    dst.DecodeText ci (some []) = ({ String := [], Status := Present }, none) ∧
    (dst.DecodeText ci (some [])).1 ≠ (dst.DecodeText ci none).1 := by
  refine ⟨?_, rfl, fun b => rfl, rfl, ?_⟩
  · intro src
    cases src <;> rfl
  · simp only [Text.DecodeText, stringOfBytes]
    decide

/-- C3: for every container with status `Undefined` and every output buffer,
`EncodeText` and `EncodeBinary` return the undefined-value error together with
the nil slice (no bytes). -/
theorem C3_encode_undefined (src : Text) (ci : Option ConnInfo) (buf : ByteSlice)
    (h : src.Status = Undefined) :
    src.EncodeText ci buf = (none, some Error.errUndefined) ∧
    src.EncodeBinary ci buf = (none, some Error.errUndefined) := by
  have hN : Undefined ≠ Null := by decide
  simp [Text.EncodeBinary, Text.EncodeText, h, hN]

theorem C3_encode_undefined_witness :
    Text.EncodeText { String := [120], Status := Undefined } none (some [1, 2])
      = (none, some Error.errUndefined) ∧
    Text.EncodeBinary { String := [120], Status := Undefined } none (some [1, 2])
      = (none, some Error.errUndefined) :=
  C3_encode_undefined { String := [120], Status := Undefined } none (some [1, 2]) rfl

/-- C4: for every container with status `Null`, whatever its payload, and
every output buffer, `EncodeText` succeeds and returns the nil slice (the
absent marker); `DecodeText` of the nil slice succeeds with status `Null`. -/
theorem C4_null_encode_decode (c : Text) (ci : Option ConnInfo) (buf : ByteSlice)
    (h : c.Status = Null) :
    c.EncodeText ci buf = (none, none) ∧
    ∀ (dst : Text) (ci2 : Option ConnInfo),
      (dst.DecodeText ci2 none).2 = none ∧ (dst.DecodeText ci2 none).1.Status = Null := by
  refine ⟨by simp [Text.EncodeText, h], fun dst ci2 => ⟨rfl, rfl⟩⟩

theorem C4_null_encode_decode_witness :
    Text.EncodeText { String := [120, 121], Status := Null } none (some [7]) = (none, none) ∧
    (Text.DecodeText { String := [120], Status := Present } none none).2 = none ∧
    (Text.DecodeText { String := [120], Status := Present } none none).1.Status = Null :=
  ⟨(C4_null_encode_decode { String := [120, 121], Status := Null } none (some [7]) rfl).1,
    (C4_null_encode_decode { String := [120, 121], Status := Null } none (some [7]) rfl).2
      { String := [120], Status := Present } none⟩

/-- C5: for every host string `s` and every prior container, `Set(s)`
succeeds and leaves the container `{payload: s, status: Present}`, and `Get`
on that container returns exactly the string `s`. -/
theorem C5_set_string_get (dst : Text) (s : GoString) :
    dst.Set (.string s) = ({ String := s, Status := Present }, none) ∧
    (dst.Set (.string s)).1.Get = .string s := by
  have h : dst.Set (.string s) = ({ String := s, Status := Present }, none) := by
    simp [Text.Set]
  refine ⟨h, ?_⟩
  rw [h]
  simp [Text.Get]

/-- C6 (the code departs from it): in the two integer cases of `Set` the
conversions `int64(value)` and `uint64(value)` apply to a variable of
interface type, which is not valid Go.  So for every signed integer `n` held
as `int`, `int64`, `int32`, `int16` or `int8` and every unsigned integer `u`
held as `uint`, `uint64`, `uint32`, `uint16` or `uint8` the call has no
result and nothing is written: the outcome is not the success with status
`Present` and the decimal numeral of the number as payload.  For `Set(42)`
the numeral is `42`, and a fresh container is still `Undefined` with the
empty payload afterwards. -/
theorem C6_set_integer_invalid_conversion (dst : Text) (n : Int) (u : Nat) :
    dst.Set (.int n) = (dst, some Error.invalidConversion) ∧
    dst.Set (.int64 n) = (dst, some Error.invalidConversion) ∧
    dst.Set (.int32 n) = (dst, some Error.invalidConversion) ∧
    dst.Set (.int16 n) = (dst, some Error.invalidConversion) ∧
    dst.Set (.int8 n) = (dst, some Error.invalidConversion) ∧
    dst.Set (.uint u) = (dst, some Error.invalidConversion) ∧
    dst.Set (.uint64 u) = (dst, some Error.invalidConversion) ∧
    dst.Set (.uint32 u) = (dst, some Error.invalidConversion) ∧
    dst.Set (.uint16 u) = (dst, some Error.invalidConversion) ∧
    dst.Set (.uint8 u) = (dst, some Error.invalidConversion) ∧
    dst.Set (.int n) ≠ ({ String := formatInt n, Status := Present }, none) ∧
    dst.Set (.uint u) ≠ ({ String := formatUint u, Status := Present }, none) ∧
    formatInt 42 = [52, 50] ∧
    Text.Set { String := [], Status := Undefined } (.int 42)
      = ({ String := [], Status := Undefined }, some Error.invalidConversion) ∧
    Text.Set { String := [], Status := Undefined } (.int 42)
      ≠ ({ String := [52, 50], Status := Present }, none) := by
  refine ⟨?_, ?_, ?_, ?_, ?_, ?_, ?_, ?_, ?_, ?_, ?_, ?_, ?_, ?_, ?_⟩
  · simp [Text.Set]
  · simp [Text.Set]
  · simp [Text.Set]
  · simp [Text.Set]
  · simp [Text.Set]
  · simp [Text.Set]
  · simp [Text.Set]
  · simp [Text.Set]
  · simp [Text.Set]
  · simp [Text.Set]
  · simp [Text.Set]
  · simp [Text.Set]
  · decide
  · simp [Text.Set]
  · simp [Text.Set]

/-- C7: `Set` of the nil interface value, of a nil `*string` and of a nil
byte slice each succeed and leave status `Null` with the empty payload,
whatever the container held; `Set` of a non-nil `*string` gives status
`Present` with the string pointed to, and `Set` of a non-nil byte slice (the
zero-length one included) gives status `Present` with the bytes as text. -/
theorem C7_set_nil_and_references (dst : Text) :
    dst.Set .nil = ({ String := [], Status := Null }, none) ∧
    dst.Set (.stringPtr none) = ({ String := [], Status := Null }, none) ∧
    dst.Set (.bytes none) = ({ String := [], Status := Null }, none) ∧
    (∀ s : GoString,
      dst.Set (.stringPtr (some s)) = ({ String := s, Status := Present }, none)) ∧
    (∀ b : List Nat,
      dst.Set (.bytes (some b)) = ({ String := b, Status := Present }, none)) ∧
    dst.Set (.bytes (some [])) = ({ String := [], Status := Present }, none) := by
  refine ⟨?_, ?_, ?_, ?_, ?_, ?_⟩ <;> simp [Text.Set, stringOfBytes]

/-- C8, as stated, fails: the present container whose payload is the single
byte 0xFF (not valid UTF-8) is marshalled to the JSON string with the escape
of U+FFFD, and unmarshalling that gives the three bytes of U+FFFD, not the
payload. -/
theorem C8_counterexample :
    Text.MarshalJSON { String := [0xFF], Status := Present }
      = (some [0x22, 0x5C, 0x75, 0x66, 0x66, 0x66, 0x64, 0x22], none) ∧
    Text.UnmarshalJSON { String := [], Status := Undefined }
        [0x22, 0x5C, 0x75, 0x66, 0x66, 0x66, 0x64, 0x22]
      = ({ String := [0xEF, 0xBF, 0xBD], Status := Present }, none) ∧
    (Text.UnmarshalJSON { String := [], Status := Undefined }
        [0x22, 0x5C, 0x75, 0x66, 0x66, 0x66, 0x64, 0x22]).1.String ≠ [0xFF] := by
  decide

/-- C8 (amended): for every container `c` with status `Present` or `Null`,
`MarshalJSON` succeeds and `UnmarshalJSON` of the produced bytes succeeds with
the status of `c`; when `c` is `Present` and its payload is valid UTF-8, the
result is `c` itself (the same payload).  For every container with status
`Undefined`, `MarshalJSON` fails with the undefined-value error and produces
no bytes. -/
theorem C8_marshalJSON_unmarshalJSON (c dst : Text) :
    (c.Status = Present →
      ∃ out, c.MarshalJSON = (some out, none) ∧
        (dst.UnmarshalJSON out).2 = none ∧
        (dst.UnmarshalJSON out).1.Status = Present ∧
        (utf8Valid c.String = true → dst.UnmarshalJSON out = (c, none))) ∧
    (c.Status = Null →
      ∃ out, c.MarshalJSON = (some out, none) ∧
        dst.UnmarshalJSON out = ({ String := [], Status := Null }, none)) ∧
    (c.Status = Undefined → c.MarshalJSON = (none, some Error.errUndefined)) := by
  obtain ⟨str, st⟩ := c
  refine ⟨?_, ?_, ?_⟩
  · intro h
    simp only at h
    subst h
    refine ⟨jsonMarshalString str, by simp [Text.MarshalJSON], ?_⟩
    have hbody := isStringBody_encodeStringLoop str.length str
    obtain ⟨v, hv, hu⟩ := jsonUnmarshalStringPtr_string [] (encodeStringLoop str.length str) []
      (by simp) hbody (by simp)
    have hun : dst.UnmarshalJSON (jsonMarshalString str)
        = ({ String := v, Status := Present }, none) := by
      simp only [List.nil_append] at hu
      simp only [Text.UnmarshalJSON, jsonMarshalString, List.cons_append, hu]
    rw [hun]
    refine ⟨rfl, rfl, ?_⟩
    intro hvalid
    have hrt := jsonStringValueLoop_encodeStringLoop str.length str (le_refl _) hvalid
      (encodeStringLoop str.length str).length (le_refl _)
    unfold jsonStringValue at hv
    rw [hrt] at hv
    simp only [Option.some.injEq] at hv
    rw [← hv]
  · intro h
    simp only at h
    subst h
    have hN : Null ≠ Present := by decide
    refine ⟨[0x6E, 0x75, 0x6C, 0x6C], by simp [Text.MarshalJSON, hN], ?_⟩
    have hu := jsonUnmarshalStringPtr_null [] [] (by simp) (by simp)
    simp only [List.nil_append] at hu
    simp only [Text.UnmarshalJSON, hu]
  · intro h
    simp only at h
    subst h
    have h1 : Undefined ≠ Present := by decide
    have h2 : Undefined ≠ Null := by decide
    simp [Text.MarshalJSON, h1, h2]

theorem C8_marshalJSON_unmarshalJSON_witness :
    utf8Valid [0xC3, 0xA9, 0x22, 0x0A] = true ∧
    Text.MarshalJSON { String := [0xC3, 0xA9, 0x22, 0x0A], Status := Present }
      = (some [0x22, 0xC3, 0xA9, 0x5C, 0x22, 0x5C, 0x6E, 0x22], none) ∧
    Text.UnmarshalJSON { String := [0x78], Status := Null }
        [0x22, 0xC3, 0xA9, 0x5C, 0x22, 0x5C, 0x6E, 0x22]
      = ({ String := [0xC3, 0xA9, 0x22, 0x0A], Status := Present }, none) := by
  obtain ⟨out, h1, _, _, h4⟩ :=
    (C8_marshalJSON_unmarshalJSON { String := [0xC3, 0xA9, 0x22, 0x0A], Status := Present }
      { String := [0x78], Status := Null }).1 rfl
  have hout : Text.MarshalJSON { String := [0xC3, 0xA9, 0x22, 0x0A], Status := Present }
      = (some [0x22, 0xC3, 0xA9, 0x5C, 0x22, 0x5C, 0x6E, 0x22], none) := by decide
  rw [hout] at h1
  simp only [Prod.mk.injEq, Option.some.injEq, and_true] at h1
  subst h1
  exact ⟨by decide, hout, h4 (by decide)⟩

/-- C9: `UnmarshalJSON` succeeds on `null` (with optional space around it)
with status `Null`; it succeeds on a JSON string literal (with optional space
around it) with status `Present` and the payload the string the literal
denotes; on every input that starts, after leading space, with anything but a
quotation mark or `n` (so on every number, object, array and boolean) it fails
with an error and leaves the container as it was, for instance on `42`, `{}`,
`[]` and `true`, which `json.Unmarshal` rejects for their type.  It accepts
nothing else: whenever it succeeds the input is `null` or a string literal,
with optional space around it. -/
theorem C9_unmarshalJSON_shapes (dst : Text) :
    dst.UnmarshalJSON [0x6E, 0x75, 0x6C, 0x6C] = ({ String := [], Status := Null }, none) ∧
    (∀ ws1 ws2 : List Nat, (∀ c ∈ ws1, isSpace c = true) → (∀ c ∈ ws2, isSpace c = true) →
      dst.UnmarshalJSON (ws1 ++ 0x6E :: 0x75 :: 0x6C :: 0x6C :: ws2)
        = ({ String := [], Status := Null }, none)) ∧
    (∀ ws1 body ws2 : List Nat, (∀ c ∈ ws1, isSpace c = true) → isStringBody body = true →
      (∀ c ∈ ws2, isSpace c = true) →
      ∃ v, jsonStringValue body = some v ∧
        dst.UnmarshalJSON (ws1 ++ 0x22 :: (body ++ 0x22 :: ws2))
          = ({ String := v, Status := Present }, none)) ∧
    (∀ b : List Nat, (∀ tail, b.dropWhile isSpace ≠ 0x22 :: tail) →
      (∀ tail, b.dropWhile isSpace ≠ 0x6E :: tail) →
      ∃ e, dst.UnmarshalJSON b = (dst, some e)) ∧
    (∀ b : List Nat, (dst.UnmarshalJSON b).2 = none →
      (∃ ws1 ws2, (∀ c ∈ ws1, isSpace c = true) ∧ (∀ c ∈ ws2, isSpace c = true) ∧
        b = ws1 ++ 0x6E :: 0x75 :: 0x6C :: 0x6C :: ws2) ∨
      (∃ ws1 body ws2, (∀ c ∈ ws1, isSpace c = true) ∧ isStringBody body = true ∧
        (∀ c ∈ ws2, isSpace c = true) ∧ b = ws1 ++ 0x22 :: (body ++ 0x22 :: ws2))) ∧
    dst.UnmarshalJSON [0x34, 0x32] = (dst, some (Error.jsonType 1)) ∧
    dst.UnmarshalJSON [0x7B, 0x7D] = (dst, some (Error.jsonType 3)) ∧
    dst.UnmarshalJSON [0x5B, 0x5D] = (dst, some (Error.jsonType 2)) ∧
    dst.UnmarshalJSON [0x74, 0x72, 0x75, 0x65] = (dst, some (Error.jsonType 0)) := by
  have hnull : ∀ ws1 ws2 : List Nat, (∀ c ∈ ws1, isSpace c = true) →
      (∀ c ∈ ws2, isSpace c = true) →
      dst.UnmarshalJSON (ws1 ++ 0x6E :: 0x75 :: 0x6C :: 0x6C :: ws2)
        = ({ String := [], Status := Null }, none) := by
    intro ws1 ws2 h1 h2
    simp only [Text.UnmarshalJSON, jsonUnmarshalStringPtr_null ws1 ws2 h1 h2]
  have hex : ∀ (b : List Nat) (e : Error),
      Text.UnmarshalJSON { String := [], Status := Undefined } b
        = ({ String := [], Status := Undefined }, some e) →
      dst.UnmarshalJSON b = (dst, some e) := by
    intro b e h
    unfold Text.UnmarshalJSON at h ⊢
    cases hj : jsonUnmarshalStringPtr b with
    | error err =>
      rw [hj] at h
      simp only [Prod.mk.injEq, Option.some.injEq, true_and] at h
      simp [h]
    | ok s =>
      rw [hj] at h
      cases s <;> simp at h
  refine ⟨by simpa using hnull [] [] (by simp) (by simp), hnull, ?_, ?_, ?_,
    hex _ _ (by decide), hex _ _ (by decide), hex _ _ (by decide), hex _ _ (by decide)⟩
  · intro ws1 body ws2 h1 hb h2
    obtain ⟨v, hv, hu⟩ := jsonUnmarshalStringPtr_string ws1 body ws2 h1 hb h2
    exact ⟨v, hv, by simp only [Text.UnmarshalJSON, hu]⟩
  · intro b h1 h2
    obtain ⟨e, he⟩ := jsonUnmarshalStringPtr_other b h1 h2
    exact ⟨e, by simp only [Text.UnmarshalJSON, he]⟩
  · intro b hb
    cases hj : jsonUnmarshalStringPtr b with
    | error err => simp [Text.UnmarshalJSON, hj] at hb
    | ok r =>
      rcases jsonUnmarshalStringPtr_ok b r hj with ⟨ws1, ws2, h1, h2, h3, _⟩ |
        ⟨ws1, body, ws2, h1, h2, h3, h4, _⟩
      · exact Or.inl ⟨ws1, ws2, h1, h2, h3⟩
      · exact Or.inr ⟨ws1, body, ws2, h1, h2, h3, h4⟩

theorem C9_unmarshalJSON_shapes_witness :
    isStringBody [0x61, 0x5C, 0x6E, 0x5C, 0x75, 0x30, 0x30, 0x65, 0x39] = true ∧
    Text.UnmarshalJSON { String := [0x78], Status := Undefined }
        [0x20, 0x22, 0x61, 0x5C, 0x6E, 0x5C, 0x75, 0x30, 0x30, 0x65, 0x39, 0x22, 0x0A]
      = ({ String := [0x61, 0x0A, 0xC3, 0xA9], Status := Present }, none) := by
  obtain ⟨v, hv, h⟩ := (C9_unmarshalJSON_shapes { String := [0x78], Status := Undefined }).2.2.1
    [0x20] [0x61, 0x5C, 0x6E, 0x5C, 0x75, 0x30, 0x30, 0x65, 0x39] [0x0A]
    (by decide) (by decide) (by decide)
  have hval : jsonStringValue [0x61, 0x5C, 0x6E, 0x5C, 0x75, 0x30, 0x30, 0x65, 0x39]
      = some [0x61, 0x0A, 0xC3, 0xA9] := by decide
  rw [hval] at hv
  simp only [Option.some.injEq] at hv
  subst hv
  exact ⟨by decide, h⟩

/-- C10: `Scan` decodes three shapes as `DecodeText` does: the nil value gives
status `Null`; a string `s` gives the container `DecodeText` gives on the
bytes of `s`; a byte slice `b` gives the container `DecodeText` gives on the
copy of `b` (for a non-nil `b`, the one it gives on `b`); on a source of any
other shape `Scan` fails and leaves the container as it was. -/
theorem C10_scan_shapes (dst : Text) :
    dst.Scan .nil = ({ String := [], Status := Null }, none) ∧
    (∀ s : GoString, dst.Scan (.string s) = dst.DecodeText none (some s)) ∧
    (∀ b : ByteSlice, dst.Scan (.bytes b) = dst.DecodeText none (makeCopy b)) ∧
    (∀ b : List Nat, dst.Scan (.bytes (some b)) = dst.DecodeText none (some b)) ∧
    (∀ src : AnyValue, src.isScanShape = false →
      (dst.Scan src).2 = some (.cannotScan src) ∧ (dst.Scan src).1 = dst) ∧
    (∀ src : AnyValue, (dst.Scan src).2 = none → src.isScanShape = true) := by
  refine ⟨rfl, fun s => rfl, fun b => rfl, fun b => rfl, ?_, ?_⟩
  · intro src h
    cases src <;> simp [AnyValue.isScanShape] at h <;> exact ⟨rfl, rfl⟩
  · intro src
    cases src <;> simp [AnyValue.isScanShape, Text.Scan]

theorem C10_scan_shapes_witness :
    AnyValue.isScanShape (.int 5) = false ∧
    (Text.Scan { String := [97], Status := Present } (.int 5)).2
      = some (.cannotScan (.int 5)) ∧
    (Text.Scan { String := [97], Status := Present } (.int 5)).1
      = { String := [97], Status := Present } :=
  ⟨rfl, (C10_scan_shapes { String := [97], Status := Present }).2.2.2.2.1 (.int 5) rfl⟩

/-- C11: `Value` gives the driver the nil value or a string: for status
`Present` the string payload and no error, for status `Null` the nil value and
no error, and for status `Undefined`, as for every status other than `Present`
and `Null`, the undefined-value error and the nil value. -/
theorem C11_value (src : Text) :
    (src.Status = Present → src.Value = (.string src.String, none)) ∧
    (src.Status = Null → src.Value = (.nil, none)) ∧
    (src.Status = Undefined → src.Value = (.nil, some Error.errUndefined)) ∧
    (src.Status ≠ Present → src.Status ≠ Null →
      src.Value = (.nil, some Error.errUndefined)) ∧
    (src.Value.1 = .nil ∨ ∃ s, src.Value.1 = .string s) := by
  have hNP : Null ≠ Present := by decide
  have hUP : Undefined ≠ Present := by decide
  have hUN : Undefined ≠ Null := by decide
  refine ⟨?_, ?_, ?_, ?_, ?_⟩
  · intro h
    simp [Text.Value, h]
  · intro h
    simp [Text.Value, h, hNP]
  · intro h
    simp [Text.Value, h, hUP, hUN]
  · intro h1 h2
    simp [Text.Value, h1, h2]
  · unfold Text.Value
    split_ifs
    · exact Or.inr ⟨_, rfl⟩
    · exact Or.inl rfl
    · exact Or.inl rfl

theorem C11_value_witness :
    Text.Value { String := [104, 105], Status := Present } = (.string [104, 105], none) ∧
    Text.Value { String := [104, 105], Status := Null } = (.nil, none) ∧
    Text.Value { String := [104, 105], Status := Undefined }
      = (.nil, some Error.errUndefined) ∧
    Text.Value { String := [104, 105], Status := { code := 7 } }
      = (.nil, some Error.errUndefined) :=
  ⟨(C11_value { String := [104, 105], Status := Present }).1 rfl,
    (C11_value { String := [104, 105], Status := Null }).2.1 rfl,
    (C11_value { String := [104, 105], Status := Undefined }).2.2.1 rfl,
    (C11_value { String := [104, 105], Status := { code := 7 } }).2.2.2.1
      (by decide) (by decide)⟩

/-- C12: for every container with status `Undefined` and every destination
(a string reference, a byte-slice reference or any other shape), whatever the
fallback lookup `GetAssignToDstType` and the routine `NullAssignTo` do and
with any fuel, `AssignTo` returns, fails with the error `cannot decode` and
leaves the destination, and the container, as they were. -/
theorem C12_assignTo_undefined (G : Dest → Option (Dest × (Dest → Dest)))
    (N : Dest → Dest × Option Error) (fuel : Nat) (src : Text) (dst : Dest)
    (h : src.Status = Undefined) :
    Text.AssignTo G N fuel src dst = some (src, dst, some (Error.cannotDecode src dst)) := by
  have hUP : Undefined ≠ Present := by decide
  have hUN : Undefined ≠ Null := by decide
  unfold Text.AssignTo
  simp [h, hUP, hUN]

theorem C12_assignTo_undefined_witness :
    Text.AssignTo (fun _ => some (Dest.stringRef [], id)) (fun d => (d, none)) 0
        { String := [104, 105], Status := Undefined } (Dest.other 3)
      = some ({ String := [104, 105], Status := Undefined }, Dest.other 3,
          some (Error.cannotDecode { String := [104, 105], Status := Undefined }
            (Dest.other 3))) :=
  C12_assignTo_undefined _ _ 0 { String := [104, 105], Status := Undefined } (Dest.other 3) rfl

/-- C13: for every container with status `Present` and payload `p`, whatever
the two outside routines do and with any fuel: `AssignTo` a string reference
succeeds and leaves the referenced string equal to `p`; `AssignTo` a
byte-slice reference succeeds and leaves the referenced slice a non-nil slice
of length `len(p)` with exactly the bytes of `p`, whatever the reference held
before; in both cases the container is unchanged. -/
theorem C13_assignTo_present (G : Dest → Option (Dest × (Dest → Dest)))
    (N : Dest → Dest × Option Error) (fuel : Nat) (src : Text)
    (h : src.Status = Present) :
    (∀ cur : GoString,
      Text.AssignTo G N fuel src (.stringRef cur) = some (src, .stringRef src.String, none)) ∧
    (∀ cur : ByteSlice,
      Text.AssignTo G N fuel src (.bytesRef cur)
        = some (src, .bytesRef (some src.String), none)) ∧
    (∀ cur : ByteSlice, ∃ bs : List Nat,
      Text.AssignTo G N fuel src (.bytesRef cur) = some (src, .bytesRef (some bs), none) ∧
      bs.length = src.String.length ∧ bs = src.String) := by
  refine ⟨?_, ?_, ?_⟩
  · intro cur
    unfold Text.AssignTo
    simp [h]
  · intro cur
    unfold Text.AssignTo
    simp [h, makeCopyOfString]
  · intro cur
    refine ⟨src.String, ?_, rfl, rfl⟩
    unfold Text.AssignTo
    simp [h, makeCopyOfString]

theorem C13_assignTo_present_witness :
    Text.AssignTo (fun _ => none) (fun d => (d, none)) 0
        { String := [104, 105], Status := Present } (Dest.stringRef [120])
      = some ({ String := [104, 105], Status := Present }, Dest.stringRef [104, 105], none) ∧
    Text.AssignTo (fun _ => none) (fun d => (d, none)) 0
        { String := [104, 105], Status := Present } (Dest.bytesRef none)
      = some ({ String := [104, 105], Status := Present },
          Dest.bytesRef (some [104, 105]), none) :=
  ⟨(C13_assignTo_present _ _ 0 { String := [104, 105], Status := Present } rfl).1 [120],
    (C13_assignTo_present _ _ 0 { String := [104, 105], Status := Present } rfl).2.1 none⟩

/-- C14: the binary channel is the text channel: for every context, container
and input `DecodeBinary` gives the container and error `DecodeText` gives, for
every container and buffer `EncodeBinary` gives the bytes and error
`EncodeText` gives, and both preferred-format declarators return the text
format code (which is not the binary one). -/
theorem C14_binary_is_text (c : Text) (ci : Option ConnInfo) (b : ByteSlice) :
    c.DecodeBinary ci b = c.DecodeText ci b ∧
    c.EncodeBinary ci b = c.EncodeText ci b ∧
    c.PreferredResultFormat = TextFormatCode ∧
    c.PreferredParamFormat = TextFormatCode ∧
    TextFormatCode ≠ BinaryFormatCode := by
  refine ⟨rfl, rfl, rfl, rfl, by decide⟩

/-- C15: `Set` is a full overwrite: for every source on which `Set` succeeds,
the container it leaves is the same for every prior state of the destination,
and calling `Set` again with the same source on the result leaves the same
container. -/
theorem C15_set_full_overwrite (src : AnyValue) (dst1 dst2 : Text)
    (h : (dst1.Set src).2 = none) :
    dst2.Set src = dst1.Set src ∧ (dst1.Set src).1.Set src = dst1.Set src := by
  rcases set_outcome src with ⟨t, _, ht⟩ | ⟨e, he⟩
  · simp [ht]
  · rw [he dst1] at h
    simp at h

theorem C15_set_full_overwrite_witness :
    (Text.Set { String := [120], Status := Present } (.getter (.string [52, 50]))).2 = none ∧
    Text.Set { String := [], Status := Undefined } (.getter (.string [52, 50]))
      = Text.Set { String := [120], Status := Present } (.getter (.string [52, 50])) ∧
    (Text.Set { String := [120], Status := Present } (.getter (.string [52, 50]))).1.Set
        (.getter (.string [52, 50]))
      = Text.Set { String := [120], Status := Present } (.getter (.string [52, 50])) :=
  ⟨by simp [Text.Set],
    C15_set_full_overwrite (.getter (.string [52, 50])) { String := [120], Status := Present }
      { String := [], Status := Undefined } (by simp [Text.Set])⟩

/-- C16: for every source that is not the nil value, has no method `Get`, is
not a string, a string reference, a byte slice, a signed or an unsigned
integer, and for which `underlyingStringType` finds no underlying string,
`Set` fails with the error `cannot convert` naming the source and leaves the
container as it was; a boolean and a float are such sources. -/
theorem C16_set_unsupported (dst : Text) :
    (∀ src : AnyValue, src ≠ .nil → src.hasGet = false → src.isSetShape = false →
      underlyingStringType src = none →
      dst.Set src = (dst, some (Error.cannotConvert src))) ∧
    (∀ b : Bool, dst.Set (.bool b) = (dst, some (Error.cannotConvert (.bool b)))) ∧
    (∀ bits : Nat,
      dst.Set (.float64 bits) = (dst, some (Error.cannotConvert (.float64 bits)))) := by
  refine ⟨?_, ?_, ?_⟩
  · intro src h1 h2 h3 h4
    cases src <;>
      simp [AnyValue.hasGet, AnyValue.isSetShape, underlyingStringType] at h1 h2 h3 h4 <;>
      simp [Text.Set, underlyingStringType]
  · intro b
    simp [Text.Set, underlyingStringType]
  · intro bits
    simp [Text.Set, underlyingStringType]

theorem C16_set_unsupported_witness :
    AnyValue.status Present ≠ .nil ∧ (AnyValue.status Present).hasGet = false ∧
    (AnyValue.status Present).isSetShape = false ∧
    underlyingStringType (.status Present) = none ∧
    Text.Set { String := [120], Status := Present } (.status Present)
      = ({ String := [120], Status := Present },
          some (Error.cannotConvert (.status Present))) :=
  ⟨by decide, rfl, rfl, rfl,
    (C16_set_unsupported { String := [120], Status := Present }).1 (.status Present)
      (by decide) rfl rfl rfl⟩

/-- C17, at the failing input: for a source of a type that is not comparable
whose `Get` returns the source itself, the comparison `value2 != value` of
`Set` panics: the call neither falls through to the type switch nor returns
the error `cannot convert`, and nothing is written.  For the other wrappers
the claim holds: when `Get` returns a different value `Set` gives what it
gives on that value, and when `Get` returns the source itself and the type
is comparable `Set` falls through to the type switch (status `Present` for a
string-underlying source, the error `cannot convert` otherwise). -/
theorem C17_set_unwrap (dst : Text) :
    (∀ tag : Nat,
      dst.Set (.getterUncomparable tag) = (dst, some Error.comparingUncomparable) ∧
      (dst.Set (.getterUncomparable tag)).2 ≠ none ∧
      (dst.Set (.getterUncomparable tag)).2
        ≠ some (Error.cannotConvert (.getterUncomparable tag))) ∧
    (∀ got : AnyValue, dst.Set (.getter got) = dst.Set got) ∧
    (∀ s : GoString,
      dst.Set (.getterSelf (some s)) = ({ String := s, Status := Present }, none)) ∧
    dst.Set (.getterSelf none) = (dst, some (Error.cannotConvert (.getterSelf none))) := by
  refine ⟨?_, ?_, ?_, ?_⟩
  · intro tag
    have h : dst.Set (.getterUncomparable tag) = (dst, some Error.comparingUncomparable) := by
      simp [Text.Set]
    rw [h]
    simp
  · intro got
    rw [Text.Set]
  · intro s
    simp [Text.Set, underlyingStringType]
  · simp [Text.Set, underlyingStringType]

/-- C18: for every container with status `Present` and payload `p` and every
output buffer (nil, empty or not), `EncodeText` succeeds and the bytes it
returns are the bytes of the buffer followed by the bytes of `p`: their number
is `len(buf) + len(p)`, the first `len(buf)` are the buffer and the rest is
the payload.  (The returned slice is nil exactly when the buffer is nil and
the payload empty.) -/
theorem C18_encodeText_appends (c : Text) (ci : Option ConnInfo) (buf : ByteSlice)
    (h : c.Status = Present) :
    (c.EncodeText ci buf).2 = none ∧
    (c.EncodeText ci buf).1.getD [] = buf.getD [] ++ c.String ∧
    ((c.EncodeText ci buf).1.getD []).length = (buf.getD []).length + c.String.length ∧
    ((c.EncodeText ci buf).1.getD []).take (buf.getD []).length = buf.getD [] ∧
    ((c.EncodeText ci buf).1.getD []).drop (buf.getD []).length = c.String ∧
    ((c.EncodeText ci buf).1 = none ↔ buf = none ∧ c.String = []) := by
  have hN : Present ≠ Null := by decide
  have hU : Present ≠ Undefined := by decide
  have hc : (c.EncodeText ci buf).1.getD [] = buf.getD [] ++ c.String := by
    simp only [Text.EncodeText, h, hN, hU, if_false]
    cases hs : c.String with
    | nil => simp [append]
    | cons a as => simp [append]
  refine ⟨by simp [Text.EncodeText, h, hN, hU], hc, ?_, ?_, ?_, ?_⟩
  · rw [hc, List.length_append]
  · rw [hc]
    simp
  · rw [hc]
    simp
  · simp only [Text.EncodeText, h, hN, hU, if_false]
    cases hs : c.String with
    | nil => simp [append]
    | cons a as => simp [append]

theorem C18_encodeText_appends_witness :
    (Text.EncodeText { String := [104, 105], Status := Present } none (some [1, 2, 3])).2
      = none ∧
    (Text.EncodeText { String := [104, 105], Status := Present } none (some [1, 2, 3])).1
      = some [1, 2, 3, 104, 105] :=
  ⟨(C18_encodeText_appends { String := [104, 105], Status := Present } none (some [1, 2, 3])
      rfl).1, by decide⟩

/-- C19: every container `t` written by a successful `Set`, `DecodeText`,
`DecodeBinary`, `Scan` or `UnmarshalJSON` has status `Null` or `Present`,
never `Undefined`, and when its status is `Null` its payload is the empty
string, for every prior state `dst` of the destination. -/
theorem C19_written_containers (dst t : Text) :
    (∀ src : AnyValue, dst.Set src = (t, none) → t.IsWritten) ∧
    (∀ (ci : Option ConnInfo) (b : ByteSlice), dst.DecodeText ci b = (t, none) → t.IsWritten) ∧
    (∀ (ci : Option ConnInfo) (b : ByteSlice),
      dst.DecodeBinary ci b = (t, none) → t.IsWritten) ∧
    (∀ src : AnyValue, dst.Scan src = (t, none) → t.IsWritten) ∧
    (∀ b : List Nat, dst.UnmarshalJSON b = (t, none) → t.IsWritten) := by
  have hdec : ∀ (ci : Option ConnInfo) (b : ByteSlice),
      dst.DecodeText ci b = (t, none) → t.IsWritten := by
    intro ci b h
    cases b with
    | none =>
      simp only [Text.DecodeText, Prod.mk.injEq, and_true] at h
      rw [← h]
      exact isWritten_null
    | some bs =>
      simp only [Text.DecodeText, Prod.mk.injEq, and_true] at h
      rw [← h]
      exact isWritten_present _
  refine ⟨?_, hdec, hdec, ?_, ?_⟩
  · intro src h
    rcases set_outcome src with ⟨u, hu, hset⟩ | ⟨e, he⟩
    · rw [hset dst] at h
      simp only [Prod.mk.injEq, and_true] at h
      subst h
      rcases hu with hu | ⟨s, hu⟩
      · rw [hu]
        exact isWritten_null
      · rw [hu]
        exact isWritten_present s
    · rw [he dst] at h
      simp at h
  · intro src h
    cases src with
    | nil =>
      simp only [Text.Scan, Prod.mk.injEq, and_true] at h
      rw [← h]
      exact isWritten_null
    | string s => exact hdec none (bytesOfString s) h
    | bytes b => exact hdec none (makeCopy b) h
    | _ => simp [Text.Scan] at h
  · intro b h
    unfold Text.UnmarshalJSON at h
    cases hj : jsonUnmarshalStringPtr b with
    | error err =>
      rw [hj] at h
      simp at h
    | ok r =>
      rw [hj] at h
      cases r with
      | none =>
        simp only [Prod.mk.injEq, and_true] at h
        rw [← h]
        exact isWritten_null
      | some s =>
        simp only [Prod.mk.injEq, and_true] at h
        rw [← h]
        exact isWritten_present s

theorem C19_written_containers_witness :
    Text.Scan { String := [120], Status := Undefined } (.bytes none)
      = ({ String := [], Status := Present }, none) ∧
    Text.IsWritten { String := [], Status := Present } :=
  ⟨rfl,
    (C19_written_containers { String := [120], Status := Undefined }
      { String := [], Status := Present }).2.2.2.1 (.bytes none) rfl⟩

/-- C20: `Scan` never maps a byte-slice source to `Null`: for every byte
slice, the nil slice included, it succeeds with status `Present` and the
bytes as payload (the empty string for the nil slice); among the sources
`Scan` accepts only the nil value gives status `Null`; so `Scan` and `Set`
disagree on the nil byte slice, where `Set` gives status `Null`. -/
theorem C20_scan_bytes_present (dst : Text) :
    (∀ b : ByteSlice,
      dst.Scan (.bytes b) = ({ String := b.getD [], Status := Present }, none)) ∧
    dst.Scan (.bytes none) = ({ String := [], Status := Present }, none) ∧
    dst.Set (.bytes none) = ({ String := [], Status := Null }, none) ∧
    dst.Scan (.bytes none) ≠ dst.Set (.bytes none) ∧
    (∀ src : AnyValue, (dst.Scan src).2 = none → (dst.Scan src).1.Status = Null →
      src = .nil) := by
  have hPN : Present ≠ Null := by decide
  have hset : dst.Set (.bytes none) = ({ String := [], Status := Null }, none) := by
    simp [Text.Set]
  refine ⟨?_, rfl, hset, ?_, ?_⟩
  · intro b
    cases b <;> rfl
  · rw [hset]
    simp only [Text.Scan, Text.DecodeText, makeCopy, stringOfBytes]
    decide
  · intro src h1 h2
    cases src with
    | nil => rfl
    | string s => simp [Text.Scan, Text.DecodeText, bytesOfString, hPN] at h2
    | bytes b => simp [Text.Scan, Text.DecodeText, makeCopy, hPN] at h2
    | _ => simp [Text.Scan] at h1

theorem C20_scan_bytes_present_witness :
    (Text.Scan { String := [120], Status := Present } .nil).2 = none ∧
    (Text.Scan { String := [120], Status := Present } .nil).1.Status = Null ∧
    Text.Scan { String := [120], Status := Present } (.bytes none)
      = ({ String := [], Status := Present }, none) ∧
    (AnyValue.nil = AnyValue.nil) :=
  ⟨rfl, rfl, (C20_scan_bytes_present { String := [120], Status := Present }).2.1,
    (C20_scan_bytes_present { String := [120], Status := Present }).2.2.2.2 .nil rfl rfl⟩

end Pgtype
